import Mathlib

/-!
# Verification of the BattleRoyaleRoom server simulation

Shallow embedding of `src/server/src/rooms/BattleRoyaleRoom.ts` and
`src/server/src/schema/BattleRoyaleState.ts`.

Conventions:
* JavaScript `number` values are modelled as `ℚ` (exact arithmetic); integer
  counters (`score`, `lives`, `rank`) as `ℤ`, timestamps (`Date.now()`) as `ℤ`.
* `Math.random()` is modelled by an explicit list of draws (`RNG`); each call
  pops the next draw (`0` once the list is exhausted).  Functions that may
  draw thread the `RNG` value through and return the rest.
* The Colyseus `MapSchema` keyed by session id is modelled as a `List Player`
  in insertion order (JS `Map` iteration order is insertion order); the
  `ArraySchema` collections are plain lists.
* The `process.env.DEBUG_MODE` flag is a `debugMode : Bool` field of the room.
* Timers (`setInterval`/`setTimeout`) are not state; the events they fire
  (tick update, countdown tick, scheduled reset) appear as transitions of the
  `Reachable` relation.
-/

/-! ## Game constants (BattleRoyaleRoom.ts lines 4-33) -/

def GAME_SPEED : ℚ := 0.005

def GRAVITY : ℚ := 0.0004

def JUMP_FORCE : ℚ := -0.008

def PIPE_DISTANCE : ℚ := 0.4

def PIPE_MIN_Y : ℚ := 0.2

def PIPE_MAX_Y : ℚ := 0.7

def BIRD_COLORS : List String := ["yellow", "red", "blue"]

/-- `MIN_PLAYERS_TO_START = DEBUG_MODE ? 1 : 2` -/
def MIN_PLAYERS_TO_START (debugMode : Bool) : ℕ := if debugMode then 1 else 2

def MAX_PLAYERS : ℕ := 20

/-- `COUNTDOWN_SECONDS = DEBUG_MODE ? 0 : 5` -/
def COUNTDOWN_SECONDS (debugMode : Bool) : ℤ := if debugMode then 0 else 5

def MIN_HOLES_PER_PIPE : ℕ := 1

def MAX_HOLES_PER_PIPE : ℕ := 3

def MIN_HOLE_SPACING : ℚ := 0.45

def MIN_HOLE_SIZE : ℚ := 0.25

def MAX_HOLE_SIZE : ℚ := 0.30

def ITEM_SPAWN_CHANCE : ℚ := 0.5

def VISION_DEGRADATION_RATE : ℚ := 0.002

def MIN_VISION : ℚ := 0.05

def VISION_RESTORE_AMOUNT : ℚ := 1.0

def DEGRADATION_MULTIPLIER_INCREASE : ℚ := 0.3

def STARTING_LIVES : ℤ := 2

def RESPAWN_INVULNERABILITY_TIME : ℤ := 2000

/-! ## Schema (BattleRoyaleState.ts) -/

/-- `Hole` schema: a gap in a pipe. -/
structure Hole where
  y : ℚ := 0.5
  size : ℚ := 0.18
  hasItem : Bool := false
  itemCollectedBy : List String := []
  deriving Repr, DecidableEq

/-- `Pipe` schema: an obstacle with 1-3 holes and a global `passed` flag. -/
structure Pipe where
  x : ℚ := 0
  holes : List Hole := []
  passed : Bool := false
  deriving Repr, DecidableEq

/-- `Player` schema. -/
structure Player where
  id : String := ""
  name : String := ""
  color : String := "yellow"
  y : ℚ := 0.5
  velocityY : ℚ := 0
  rotation : ℚ := 0
  score : ℤ := 0
  alive : Bool := true
  rank : ℤ := 0
  eliminatedAt : ℤ := 0
  vision : ℚ := 1.0
  visionDegradationMultiplier : ℚ := 1.0
  lives : ℤ := 2
  lastHitTime : ℤ := 0
  deriving Repr, DecidableEq

/-- `BattleRoyaleState` schema. -/
structure BattleRoyaleState where
  phase : String := "waiting"
  countdown : ℤ := 3
  startTime : ℤ := 0
  gameTime : ℤ := 0
  playersAlive : ℕ := 0
  totalPlayers : ℕ := 0
  winnerId : String := ""
  players : List Player := []
  pipes : List Pipe := []
  gameSpeed : ℚ := 0.005
  gravity : ℚ := 0.0004
  jumpForce : ℚ := -0.008
  pipeDistance : ℚ := 0.4
  deriving Repr, DecidableEq

/-- The room: replicated state plus the private `lastPipeX` tracker and the
`DEBUG_MODE` environment flag read at creation. -/
structure BattleRoyaleRoom where
  state : BattleRoyaleState
  lastPipeX : ℚ := 1.5
  debugMode : Bool := false
  deriving Repr, DecidableEq

/-- Explicit model of the `Math.random()` stream: a list of pending draws.
A real execution supplies draws in `[0,1)`. -/
structure RNG where
  draws : List ℚ
  deriving Repr, DecidableEq

/-- Pop one draw (`Math.random()` call); `0` if the stream ran out. -/
def RNG.next (r : RNG) : ℚ × RNG :=
  match r.draws with
  | [] => (0, ⟨[]⟩)
  | d :: rest => (d, ⟨rest⟩)

/-! ## List helpers for the player map -/

/-- `countAlivePlayers` (lines 424-430) on a raw player list. -/
def countAliveL (ps : List Player) : ℕ := (ps.filter (fun p => p.alive)).length

/-- `this.countAlivePlayers()` -/
def countAlivePlayers (st : BattleRoyaleState) : ℕ := countAliveL st.players

/-- `this.state.players.get(sessionId)` -/
def findPlayer (r : BattleRoyaleRoom) (sessionId : String) : Option Player :=
  r.state.players.find? (fun p => p.id = sessionId)

/-- Writing a mutated player object back into the map: every entry whose key
matches is replaced (keys are unique in a real map, so exactly one is). -/
def updateById (ps : List Player) (sessionId : String) (p' : Player) : List Player :=
  ps.map (fun q => if q.id = sessionId then p' else q)

/-- `this.state.players.set(sessionId, player)`: replace an existing binding
or append a new one. -/
def setPlayerList (ps : List Player) (p : Player) : List Player :=
  if ps.any (fun q => q.id = p.id) then updateById ps p.id p else ps ++ [p]

/-- `Math.max` on JS numbers, as an executable definition (equal to `max`,
see `qmax_eq_max`). -/
def qmax (a b : ℚ) : ℚ := if a < b then b else a

/-- `Math.min` on JS numbers, as an executable definition (equal to `min`,
see `qmin_eq_min`). -/
def qmin (a b : ℚ) : ℚ := if b < a then b else a

theorem qmax_eq_max (a b : ℚ) : qmax a b = max a b := by
  unfold qmax
  rw [max_def]
  rcases lt_trichotomy a b with h | h | h
  · rw [if_pos h, if_pos h.le]
  · rw [if_neg (by rw [h]; exact lt_irrefl b), if_pos h.le, h]
  · rw [if_neg (not_lt.mpr h.le), if_neg (not_le.mpr h)]

theorem qmin_eq_min (a b : ℚ) : qmin a b = min a b := by
  unfold qmin
  rw [min_def]
  rcases lt_trichotomy a b with h | h | h
  · rw [if_neg (not_lt.mpr h.le), if_pos h.le]
  · rw [if_neg (by rw [h]; exact lt_irrefl b), if_pos h.le, h]
  · rw [if_pos h, if_neg (not_le.mpr h)]

/-! ## Collision resolution (checkCollisions, lines 307-383)

The bird's horizontal hitbox constants are local constants in the source
(`const birdX = 0.3`, `const birdSize = 0.03`, `const pipeWidth = 0.08`);
they are hoisted to top-level definitions here. -/

def birdX : ℚ := 0.3

def birdSize : ℚ := 0.03

def pipeWidth : ℚ := 0.08

/-- The `for (const hole of pipe.holes)` loop (lines 342-368): find the first
hole that fully contains the bird; inside it, possibly collect the item.
Returns the (possibly mutated) player, the (possibly mutated) hole list, and
`inAnyHole`. -/
def scanHoles (pipeX : ℚ) (p : Player) : List Hole → Player × List Hole × Bool
  | [] => (p, [], false)
  | hole :: rest =>
    let gapTop := hole.y - hole.size / 2
    let gapBottom := hole.y + hole.size / 2
    if p.y - birdSize ≥ gapTop ∧ p.y + birdSize ≤ gapBottom then
      -- bird is inside this hole: item collection check, then `break`
      let hasCollected := hole.itemCollectedBy.contains p.id
      if hole.hasItem ∧ ¬hasCollected ∧ birdX > pipeX then
        let hole' := { hole with itemCollectedBy := hole.itemCollectedBy ++ [p.id] }
        let p' := { p with
          vision := 1.0,
          visionDegradationMultiplier :=
            p.visionDegradationMultiplier + DEGRADATION_MULTIPLIER_INCREASE,
          score := p.score + 5 }
        (p', hole' :: rest, true)
      else
        (p, hole :: rest, true)
    else
      let res := scanHoles pipeX p rest
      (res.1, hole :: res.2.1, res.2.2)

/-- The `for (const pipe of this.state.pipes)` loop (lines 333-382).  The
returned `Bool` is true when lethal contact occurred (the source calls
`eliminatePlayer` and returns there; we surface the flag so the caller can
apply the elimination procedure to the room). -/
def checkPipes (invulnerable : Bool) (p : Player) : List Pipe → Player × List Pipe × Bool
  | [] => (p, [], false)
  | pipe :: rest =>
    if birdX + birdSize > pipe.x - pipeWidth / 2 ∧
       birdX - birdSize < pipe.x + pipeWidth / 2 then
      let scanned := scanHoles pipe.x p pipe.holes
      let p1 := scanned.1
      let pipe1 : Pipe := { pipe with holes := scanned.2.1 }
      let inAnyHole := scanned.2.2
      if ¬inAnyHole ∧ ¬invulnerable then
        -- collision with pipe: eliminate and return
        (p1, pipe1 :: rest, true)
      else
        -- score point for passing pipe (only once)
        let hit := ¬pipe1.passed ∧ birdX > pipe1.x
        let pipe2 := if hit then { pipe1 with passed := true } else pipe1
        let p2 := if hit then { p1 with score := p1.score + 1 } else p1
        let res := checkPipes invulnerable p2 rest
        (res.1, pipe2 :: res.2.1, res.2.2)
    else
      let res := checkPipes invulnerable p rest
      (res.1, pipe :: res.2.1, res.2.2)

/-- Ceiling clamp followed by the pipe loop (lines 323-382). -/
def checkCollisionsRest (invulnerable : Bool) (pipes : List Pipe) (p : Player) :
    Player × List Pipe × Bool :=
  let p := if p.y < 0.02 then { p with y := 0.02, velocityY := 0 } else p
  checkPipes invulnerable p pipes

/-- `checkCollisions(player)` (lines 307-383).  Returns the mutated player,
the mutated pipe list and whether lethal contact occurred. -/
def checkCollisions (now : ℤ) (pipes : List Pipe) (p : Player) :
    Player × List Pipe × Bool :=
  let isInvulnerable : Bool := now - p.lastHitTime < RESPAWN_INVULNERABILITY_TIME
  if p.y > 0.85 then
    if isInvulnerable then
      -- bounce off floor when invulnerable (no damage)
      let p := { p with y := 0.85, velocityY := qmin 0 p.velocityY }
      checkCollisionsRest isInvulnerable pipes p
    else
      -- take damage when not invulnerable: eliminate and return
      (p, pipes, true)
  else
    checkCollisionsRest isInvulnerable pipes p

/-! ## Physics integration (updatePlayer, lines 284-305) -/

/-- Gravity accumulation followed by the velocity clamp (lines 285-289). -/
def integrateVelocity (gravity v : ℚ) : ℚ := qmax (-0.02) (qmin 0.015 (v + gravity))

/-- `updatePlayer(player)` (lines 284-305): physics, rotation easing, vision
decay, then collision resolution. -/
def updatePlayer (now : ℤ) (gravity : ℚ) (pipes : List Pipe) (p : Player) :
    Player × List Pipe × Bool :=
  let p := { p with velocityY := integrateVelocity gravity p.velocityY }
  let p := { p with y := p.y + p.velocityY }
  let targetRotation : ℚ := if p.velocityY > 0 then 90 else -20
  let p := { p with rotation := p.rotation + (targetRotation - p.rotation) * 0.1 }
  let p := { p with rotation := qmax (-20) (qmin 90 p.rotation) }
  let degradationRate := VISION_DEGRADATION_RATE * p.visionDegradationMultiplier
  let p := { p with vision := qmax MIN_VISION (p.vision - degradationRate) }
  checkCollisions now pipes p

/-! ## Elimination / lives handling (eliminatePlayer, lines 385-412) -/

/-- The per-player part of `eliminatePlayer`: lives decrement and either the
respawn mutation or the full elimination mutation.  `aliveCount` is
`this.state.playersAlive` as read when assigning the rank. -/
def eliminateCore (now : ℤ) (aliveCount : ℕ) (player : Player) : Player :=
  if ¬player.alive then player
  else
    let player := { player with lives := max 0 (player.lives - 1), lastHitTime := now }
    if player.lives > 0 then
      -- respawn at middle of screen with reset velocity
      { player with y := 0.5, velocityY := 0, rotation := 0 }
    else
      -- no lives remaining: fully eliminate
      { player with alive := false, eliminatedAt := now, rank := (aliveCount : ℤ) }

/-- `eliminatePlayer(player)` at room level: mutate the player in the map and,
in the full-elimination branch, recompute `playersAlive` (line 410). -/
def eliminatePlayer (now : ℤ) (sessionId : String) (r : BattleRoyaleRoom) :
    BattleRoyaleRoom :=
  match findPlayer r sessionId with
  | none => r
  | some player =>
    if ¬player.alive then r
    else
      let player' := eliminateCore now r.state.playersAlive player
      let r1 := { r with state :=
        { r.state with players := updateById r.state.players sessionId player' } }
      if player'.alive then r1
      else { r1 with state :=
        { r1.state with playersAlive := countAlivePlayers r1.state } }

/-! ## Obstacle generation (generatePipe, lines 231-282) -/

/-- `holePositions.some(existingY => Math.abs(existingY - y) < MIN_HOLE_SPACING)` -/
def holeConflicts (existing : List ℚ) (y : ℚ) : Bool :=
  existing.any (fun e => |e - y| < MIN_HOLE_SPACING)

/-- The `do { y = ...; attempts++ } while (attempts < 20 && conflict)` loop
(lines 245-251).  `fuel` is the number of iterations still allowed (20 minus
`attempts`); it only bounds the recursion, the exit test is the source's.
Returns the last sampled `y`, the final `attempts` counter, and the rest of
the random stream. -/
def sampleHoleY (existing : List ℚ) : ℕ → ℕ → RNG → ℚ × ℕ × RNG
  | attempts, 0, rng => (0, attempts, rng)
  | attempts, fuel + 1, rng =>
    let (d, rng') := rng.next
    let y := PIPE_MIN_Y + d * (PIPE_MAX_Y - PIPE_MIN_Y)
    let attempts' := attempts + 1
    if attempts' < 20 ∧ holeConflicts existing y then
      sampleHoleY existing attempts' fuel rng'
    else
      (y, attempts', rng')

/-- The `for (let i = 0; i < numHoles; i++)` loop (lines 240-269): the first
component accumulates `holePositions`, the second the created holes. -/
def buildHoles : ℕ → List ℚ → List Hole → RNG → List ℚ × List Hole × RNG
  | 0, positions, holes, rng => (positions, holes, rng)
  | n + 1, positions, holes, rng =>
    let (y, attempts, rng') := sampleHoleY positions 0 20 rng
    if attempts < 20 then
      let (sizeFactor, rng'') := rng'.next
      let hole : Hole :=
        { y := y,
          size := MIN_HOLE_SIZE + sizeFactor * (MAX_HOLE_SIZE - MIN_HOLE_SIZE),
          hasItem := false,
          itemCollectedBy := [] }
      buildHoles n (positions ++ [y]) (holes ++ [hole]) rng''
    else
      buildHoles n positions holes rng'

/-- Hole construction plus the single-item placement (lines 236-278). -/
def genHolesAndItem (rng : RNG) : List Hole × RNG :=
  let (d, rng1) := rng.next
  let numHoles := MIN_HOLES_PER_PIPE +
    (Int.toNat ⌊d * ((MAX_HOLES_PER_PIPE : ℚ) - (MIN_HOLES_PER_PIPE : ℚ) + 1)⌋)
  let built := buildHoles numHoles [] [] rng1
  let holes := built.2.1
  let rng2 := built.2.2
  -- after all holes are created, randomly place ONE item
  if holes.length > 0 then
    let (d2, rng3) := rng2.next
    if d2 < ITEM_SPAWN_CHANCE then
      let (d3, rng4) := rng3.next
      let randomHoleIndex := Int.toNat ⌊d3 * (holes.length : ℚ)⌋
      match holes.get? randomHoleIndex with
      | some randomHole =>
        (holes.set randomHoleIndex { randomHole with hasItem := true }, rng4)
      | none => (holes, rng4)
    else (holes, rng3)
  else (holes, rng2)

/-- `generatePipe()` (lines 231-282): append one pipe at `x = 1.1` and reset
`lastPipeX` to `1.1`. -/
def generatePipe (rng : RNG) (r : BattleRoyaleRoom) : BattleRoyaleRoom × RNG :=
  let (holes, rng') := genHolesAndItem rng
  let pipe : Pipe := { x := 1.1, holes := holes, passed := false }
  ({ r with
      state := { r.state with pipes := r.state.pipes ++ [pipe] },
      lastPipeX := 1.1 },
   rng')

/-! ## Pipe scrolling (updatePipes, lines 206-229) -/

/-- The scroll-and-despawn part of `updatePipes`: every pipe moves left by
`gameSpeed`, pipes with `x < -0.1` are removed.  (The source loops backwards
with `splice`; map-then-filter is the same transformation.) -/
def movedPipes (r : BattleRoyaleRoom) : List Pipe :=
  (r.state.pipes.map (fun pipe => { pipe with x := pipe.x - r.state.gameSpeed })).filter
    (fun pipe => ¬(pipe.x < -0.1))

/-- `updatePipes()` (lines 206-229). -/
def updatePipes (rng : RNG) (r : BattleRoyaleRoom) : BattleRoyaleRoom × RNG :=
  let r := { r with
    state := { r.state with pipes := movedPipes r },
    lastPipeX := r.lastPipeX - r.state.gameSpeed }
  if r.lastPipeX < 1 - PIPE_DISTANCE then generatePipe rng r else (r, rng)

/-! ## Win condition and game end (lines 432-464) -/

/-- `endGame()` (lines 446-458) without the reset timer (the scheduled
`resetRoom` is a separate transition). -/
def endGame (r : BattleRoyaleRoom) : BattleRoyaleRoom :=
  let st := { r.state with phase := "finished" }
  let st := { st with
    players := st.players.map (fun p => if p.alive then { p with rank := 1 } else p),
    winnerId := st.players.foldl (fun w p => if p.alive then p.id else w) st.winnerId }
  { r with state := st }

/-- `checkWinCondition()` (lines 432-444). -/
def checkWinCondition (r : BattleRoyaleRoom) : BattleRoyaleRoom :=
  if r.state.phase ≠ "playing" then r
  else
    let alivePlayers := countAlivePlayers r.state
    let minPlayersToEnd : ℕ := if r.debugMode then 0 else 1
    if alivePlayers ≤ minPlayersToEnd then endGame r else r

/-! ## The tick (update, lines 188-204) -/

/-- One iteration of the `players.forEach` body in `update` (lines 197-200):
skip dead players, otherwise run `updatePlayer` and apply any elimination. -/
def tickOnePlayer (now : ℤ) (r : BattleRoyaleRoom) (sessionId : String) :
    BattleRoyaleRoom :=
  match findPlayer r sessionId with
  | none => r
  | some p =>
    if ¬p.alive then r
    else
      let res := updatePlayer now r.state.gravity r.state.pipes p
      let r1 := { r with state := { r.state with
        players := updateById r.state.players sessionId res.1,
        pipes := res.2.1 } }
      if res.2.2 then eliminatePlayer now sessionId r1 else r1

/-- `update(dt)` (lines 188-204): guard on phase, stamp `gameTime`, scroll
pipes, update every player in insertion order, then check the win
condition. -/
def update (now : ℤ) (rng : RNG) (r : BattleRoyaleRoom) : BattleRoyaleRoom × RNG :=
  if r.state.phase ≠ "playing" then (r, rng)
  else
    let r := { r with state := { r.state with gameTime := now - r.state.startTime } }
    let res := updatePipes rng r
    let r := (res.1.state.players.map (fun p => p.id)).foldl (tickOnePlayer now) res.1
    (checkWinCondition r, res.2)

/-! ## Lifecycle (lines 112-171, 466-486) -/

/-- `startGame()` (lines 144-171) without the tick-loop scheduling. -/
def startGame (now : ℤ) (rng : RNG) (r : BattleRoyaleRoom) :
    BattleRoyaleRoom × RNG :=
  let st := { r.state with
    phase := "playing",
    startTime := now,
    playersAlive := countAlivePlayers r.state }
  let st := { st with players := st.players.map (fun (player : Player) =>
    { player with
      y := 0.5, velocityY := 0, rotation := 0, score := 0, alive := true,
      vision := 1.0, visionDegradationMultiplier := 1.0,
      lives := STARTING_LIVES, lastHitTime := 0 }) }
  let st := { st with pipes := [] }
  generatePipe rng { r with state := st, lastPipeX := 1.5 }

/-- `startCountdown()` (lines 120-142); when `COUNTDOWN_SECONDS` is `0`
(debug mode) the game starts immediately, otherwise the one-second interval
is scheduled (its firings are separate transitions). -/
def startCountdown (now : ℤ) (rng : RNG) (r : BattleRoyaleRoom) :
    BattleRoyaleRoom × RNG :=
  if r.state.phase ≠ "waiting" then (r, rng)
  else
    let r := { r with state := { r.state with
      phase := "countdown", countdown := COUNTDOWN_SECONDS r.debugMode } }
    if COUNTDOWN_SECONDS r.debugMode = 0 then startGame now rng r else (r, rng)

/-- `checkStartConditions()` (lines 112-118). -/
def checkStartConditions (now : ℤ) (rng : RNG) (r : BattleRoyaleRoom) :
    BattleRoyaleRoom × RNG :=
  if r.state.phase ≠ "waiting" then (r, rng)
  else if r.state.players.length ≥ MIN_PLAYERS_TO_START r.debugMode then
    startCountdown now rng r
  else (r, rng)

/-- One firing of the countdown interval (lines 132-141). -/
def countdownTick (now : ℤ) (rng : RNG) (r : BattleRoyaleRoom) :
    BattleRoyaleRoom × RNG :=
  let r := { r with state := { r.state with countdown := r.state.countdown - 1 } }
  if r.state.countdown ≤ 0 then startGame now rng r else (r, rng)

/-- `resetRoom()` (lines 466-486). -/
def resetRoom (now : ℤ) (rng : RNG) (r : BattleRoyaleRoom) :
    BattleRoyaleRoom × RNG :=
  let st := { r.state with
    phase := "waiting",
    countdown := COUNTDOWN_SECONDS r.debugMode,
    winnerId := "",
    pipes := [] }
  let st := { st with players := st.players.map (fun (player : Player) =>
    { player with
      y := 0.5, velocityY := 0, rotation := 0, score := 0, alive := true,
      rank := 0 }) }
  let st := { st with playersAlive := countAliveL st.players }
  let r := { r with state := st, lastPipeX := 1.5 }
  checkStartConditions now rng r

/-! ## Membership and messages (lines 50-102, 414-422) -/

/-- `onJoin(client, options)` (lines 69-86). -/
def onJoin (sessionId : String) (optName : Option String) (now : ℤ) (rng : RNG)
    (r : BattleRoyaleRoom) : BattleRoyaleRoom × RNG :=
  let player : Player :=
    { id := sessionId,
      name := optName.getD ("Bird" ++ toString (r.state.players.length + 1)),
      color := (BIRD_COLORS.get? (r.state.players.length % BIRD_COLORS.length)).getD "yellow",
      y := 0.5,
      alive := true }
  let players := setPlayerList r.state.players player
  let r := { r with state := { r.state with
    players := players,
    totalPlayers := players.length,
    playersAlive := countAliveL players } }
  checkStartConditions now rng r

/-- `onLeave(client, consented)` (lines 88-102): mark dead, delete from the
map, refresh the counters, re-check the win condition. -/
def onLeave (sessionId : String) (r : BattleRoyaleRoom) : BattleRoyaleRoom :=
  let players := r.state.players.map (fun p =>
    if p.id = sessionId then { p with alive := false } else p)
  let players := players.filter (fun p => ¬(p.id = sessionId))
  let r := { r with state := { r.state with
    players := players,
    totalPlayers := players.length,
    playersAlive := countAliveL players } }
  checkWinCondition r

/-- `handleFlap(sessionId)` (lines 414-422). -/
def handleFlap (sessionId : String) (r : BattleRoyaleRoom) : BattleRoyaleRoom :=
  match findPlayer r sessionId with
  | none => r
  | some player =>
    if ¬player.alive then r
    else if r.state.phase ≠ "playing" then r
    else { r with state := { r.state with
      players := updateById r.state.players sessionId
        { player with velocityY := r.state.jumpForce } } }

/-- The `setName` message handler (lines 61-66). -/
def handleSetName (sessionId : String) (n : String) (r : BattleRoyaleRoom) :
    BattleRoyaleRoom :=
  match findPlayer r sessionId with
  | none => r
  | some player =>
    { r with state := { r.state with
      players := updateById r.state.players sessionId
        { player with name := (n.toList.take 15).asString } } }

/-- The room right after `onCreate` (lines 41-67). -/
def initialRoom (debugMode : Bool) : BattleRoyaleRoom :=
  { state :=
      { phase := "waiting", countdown := 3, startTime := 0, gameTime := 0,
        playersAlive := 0, totalPlayers := 0, winnerId := "",
        players := [], pipes := [],
        gameSpeed := GAME_SPEED, gravity := GRAVITY,
        jumpForce := JUMP_FORCE, pipeDistance := PIPE_DISTANCE },
    lastPipeX := 1.5,
    debugMode := debugMode }

/-! ## Shared lemmas: which fields each operation can touch -/

theorem scanHoles_id (pipeX : ℚ) (p : Player) (holes : List Hole) :
    (scanHoles pipeX p holes).1.id = p.id := by
  induction holes with
  | nil => simp [scanHoles]
  | cons hole rest ih =>
    simp only [scanHoles]
    split
    · split <;> simp
    · simpa using ih

theorem scanHoles_alive (pipeX : ℚ) (p : Player) (holes : List Hole) :
    (scanHoles pipeX p holes).1.alive = p.alive := by
  induction holes with
  | nil => simp [scanHoles]
  | cons hole rest ih =>
    simp only [scanHoles]
    split
    · split <;> simp
    · simpa using ih

theorem scanHoles_y (pipeX : ℚ) (p : Player) (holes : List Hole) :
    (scanHoles pipeX p holes).1.y = p.y := by
  induction holes with
  | nil => simp [scanHoles]
  | cons hole rest ih =>
    simp only [scanHoles]
    split
    · split <;> simp
    · simpa using ih

theorem checkPipes_id (inv : Bool) (p : Player) (pipes : List Pipe) :
    (checkPipes inv p pipes).1.id = p.id := by
  induction pipes generalizing p with
  | nil => simp [checkPipes]
  | cons pipe rest ih =>
    simp only [checkPipes]
    split
    · split
      · simp [scanHoles_id]
      · split <;> · rw [ih]; simp [scanHoles_id]
    · simpa using ih p

theorem checkPipes_alive (inv : Bool) (p : Player) (pipes : List Pipe) :
    (checkPipes inv p pipes).1.alive = p.alive := by
  induction pipes generalizing p with
  | nil => simp [checkPipes]
  | cons pipe rest ih =>
    simp only [checkPipes]
    split
    · split
      · simp [scanHoles_alive]
      · split <;> · rw [ih]; simp [scanHoles_alive]
    · simpa using ih p

theorem checkCollisions_id (now : ℤ) (pipes : List Pipe) (p : Player) :
    (checkCollisions now pipes p).1.id = p.id := by
  simp only [checkCollisions, checkCollisionsRest]
  split
  · split
    · split <;> simp [checkPipes_id]
    · simp
  · split <;> simp [checkPipes_id]

theorem checkCollisions_alive (now : ℤ) (pipes : List Pipe) (p : Player) :
    (checkCollisions now pipes p).1.alive = p.alive := by
  simp only [checkCollisions, checkCollisionsRest]
  split
  · split
    · split <;> simp [checkPipes_alive]
    · simp
  · split <;> simp [checkPipes_alive]

theorem updatePlayer_id (now : ℤ) (g : ℚ) (pipes : List Pipe) (p : Player) :
    (updatePlayer now g pipes p).1.id = p.id := by
  simp only [updatePlayer]
  split <;> simp [checkCollisions_id]

theorem updatePlayer_alive (now : ℤ) (g : ℚ) (pipes : List Pipe) (p : Player) :
    (updatePlayer now g pipes p).1.alive = p.alive := by
  simp only [updatePlayer]
  split <;> simp [checkCollisions_alive]

theorem eliminateCore_id (now : ℤ) (ac : ℕ) (p : Player) :
    (eliminateCore now ac p).id = p.id := by
  simp only [eliminateCore]
  split
  · rfl
  · split <;> simp

/-! ## Shared lemmas: counting and map surgery -/

theorem countAliveL_map_of_alive (ps : List Player) (f : Player → Player)
    (hf : ∀ p, (f p).alive = p.alive) :
    countAliveL (ps.map f) = countAliveL ps := by
  induction ps with
  | nil => rfl
  | cons q rest ih =>
    simp only [countAliveL, List.map_cons, List.filter_cons] at *
    rw [hf q]
    by_cases hq : q.alive <;> simp [hq, ih]

theorem countAliveL_updateById (ps : List Player) (sid : String) (p' : Player)
    (h : ∀ q ∈ ps, q.id = sid → q.alive = p'.alive) :
    countAliveL (updateById ps sid p') = countAliveL ps := by
  induction ps with
  | nil => rfl
  | cons q rest ih =>
    simp only [updateById, countAliveL, List.map_cons, List.filter_cons] at *
    by_cases hid : q.id = sid
    · rw [if_pos hid]
      have : p'.alive = q.alive := (h q (by simp) hid).symm
      rw [this]
      by_cases hq : q.alive <;>
        simp [hq, ih fun a ha hs => h a (by simp [ha]) hs]
    · rw [if_neg hid]
      by_cases hq : q.alive <;>
        simp [hq, ih fun a ha hs => h a (by simp [ha]) hs]

theorem updateById_map_id (ps : List Player) (sid : String) (p' : Player)
    (h : p'.id = sid) :
    (updateById ps sid p').map (fun p => p.id) = ps.map (fun p => p.id) := by
  induction ps with
  | nil => rfl
  | cons q rest ih =>
    simp only [updateById, List.map_cons] at *
    by_cases hid : q.id = sid <;> simp [hid, ih, h]

theorem mem_updateById (ps : List Player) (sid : String) (p' q' : Player)
    (h : q' ∈ updateById ps sid p') : q' = p' ∨ q' ∈ ps := by
  simp only [updateById, List.mem_map] at h
  obtain ⟨a, ha, rfl⟩ := h
  by_cases hid : a.id = sid
  · left; simp [hid]
  · right; simpa [hid] using ha

theorem findPlayer_id (r : BattleRoyaleRoom) (sid : String) (p : Player)
    (h : findPlayer r sid = some p) : p.id = sid := by
  have := List.find?_some h
  simpa using this

theorem findPlayer_mem (r : BattleRoyaleRoom) (sid : String) (p : Player)
    (h : findPlayer r sid = some p) : p ∈ r.state.players :=
  List.mem_of_find?_eq_some h

theorem countAliveL_eq_length (ps : List Player) (h : ∀ p ∈ ps, p.alive = true) :
    countAliveL ps = ps.length := by
  unfold countAliveL
  rw [List.filter_eq_self.mpr (by simpa using h)]

theorem map_player_id (ps : List Player) (f : Player → Player)
    (hf : ∀ p, (f p).id = p.id) :
    (ps.map f).map (fun p => p.id) = ps.map (fun p => p.id) := by
  rw [List.map_map]
  exact List.map_congr_left fun a _ => hf a

/-! ## The alive-count invariant and its companions -/

/-- `playersAlive` agrees with a from-scratch recount (the C3 property). -/
def AliveConsistent (r : BattleRoyaleRoom) : Prop :=
  r.state.playersAlive = countAlivePlayers r.state

/-- In the `waiting` and `countdown` phases every roster member is alive
(eliminations only happen while `playing`, and `resetRoom` revives). -/
def AllAliveInLobby (r : BattleRoyaleRoom) : Prop :=
  r.state.phase = "waiting" ∨ r.state.phase = "countdown" →
    ∀ p ∈ r.state.players, p.alive = true

/-- Session ids are unique (the player map is keyed by session id). -/
def UniqueIds (r : BattleRoyaleRoom) : Prop :=
  (r.state.players.map (fun p => p.id)).Nodup

/-- The inductive invariant for the room state machine. -/
def RoomInv (r : BattleRoyaleRoom) : Prop :=
  AliveConsistent r ∧ AllAliveInLobby r ∧ UniqueIds r

/-! ### Preservation through each operation -/

theorem generatePipe_state (rng : RNG) (r : BattleRoyaleRoom) :
    (generatePipe rng r).1.state.players = r.state.players ∧
    (generatePipe rng r).1.state.phase = r.state.phase ∧
    (generatePipe rng r).1.state.playersAlive = r.state.playersAlive := by
  simp [generatePipe]

theorem startGame_phase (now : ℤ) (rng : RNG) (r : BattleRoyaleRoom) :
    (startGame now rng r).1.state.phase = "playing" := by
  simp [startGame, generatePipe]

theorem startGame_alive (now : ℤ) (rng : RNG) (r : BattleRoyaleRoom) :
    ∀ p ∈ (startGame now rng r).1.state.players, p.alive = true := by
  simp only [startGame, generatePipe]
  intro p hp
  simp only [List.mem_map] at hp
  obtain ⟨a, _, rfl⟩ := hp
  rfl

theorem startGame_playersAlive (now : ℤ) (rng : RNG) (r : BattleRoyaleRoom) :
    (startGame now rng r).1.state.playersAlive = countAliveL r.state.players := by
  simp [startGame, generatePipe, countAlivePlayers]

theorem startGame_length (now : ℤ) (rng : RNG) (r : BattleRoyaleRoom) :
    (startGame now rng r).1.state.players.length = r.state.players.length := by
  simp [startGame, generatePipe]

theorem startGame_ids (now : ℤ) (rng : RNG) (r : BattleRoyaleRoom) :
    (startGame now rng r).1.state.players.map (fun p => p.id) =
      r.state.players.map (fun p => p.id) := by
  simp only [startGame, generatePipe]
  rw [map_player_id]
  intro p
  rfl

theorem startGame_inv (now : ℤ) (rng : RNG) (r : BattleRoyaleRoom)
    (hall : ∀ p ∈ r.state.players, p.alive = true) (huniq : UniqueIds r) :
    RoomInv (startGame now rng r).1 ∧ (startGame now rng r).1.state.phase = "playing" := by
  refine ⟨⟨?_, ?_, ?_⟩, startGame_phase now rng r⟩
  · unfold AliveConsistent countAlivePlayers
    rw [startGame_playersAlive, countAliveL_eq_length _ hall,
      countAliveL_eq_length _ (startGame_alive now rng r), startGame_length]
  · unfold AllAliveInLobby
    rw [startGame_phase]
    intro h
    rcases h with h | h <;> simp at h
  · unfold UniqueIds
    rw [startGame_ids]
    exact huniq

theorem mem_setPlayerList (ps : List Player) (p q : Player)
    (h : q ∈ setPlayerList ps p) : q = p ∨ q ∈ ps := by
  unfold setPlayerList at h
  split at h
  · exact mem_updateById ps p.id p q h
  · rcases List.mem_append.mp h with h | h
    · exact Or.inr h
    · exact Or.inl (by simpa using h)

theorem setPlayerList_nodup (ps : List Player) (p : Player)
    (h : (ps.map (fun q => q.id)).Nodup) :
    ((setPlayerList ps p).map (fun q => q.id)).Nodup := by
  unfold setPlayerList
  split
  · rwa [updateById_map_id ps p.id p rfl]
  · next hany =>
    rw [List.map_append]
    simp only [List.map_cons, List.map_nil]
    rw [List.nodup_append]
    refine ⟨h, List.nodup_singleton _, ?_⟩
    intro a ha
    simp only [List.mem_singleton]
    intro hb
    rw [List.any_eq_true] at hany
    apply hany
    simp only [List.mem_map] at ha
    obtain ⟨q, hq, rfl⟩ := ha
    exact ⟨q, hq, by simp [hb]⟩

theorem nodup_find_unique (ps : List Player) (sid : String) (p : Player)
    (hnd : (ps.map (fun q => q.id)).Nodup)
    (hf : ps.find? (fun q => q.id = sid) = some p) :
    ∀ q ∈ ps, q.id = sid → q = p := by
  induction ps with
  | nil => simp at hf
  | cons a rest ih =>
    simp only [List.map_cons, List.nodup_cons] at hnd
    intro q hq hqid
    by_cases ha : a.id = sid
    · rw [List.find?_cons_of_pos _ (by simpa using ha)] at hf
      obtain rfl := Option.some_inj.mp hf
      rcases List.mem_cons.mp hq with rfl | hq
      · rfl
      · exact absurd (List.mem_map.mpr ⟨q, hq, by rw [hqid]; exact ha.symm⟩) hnd.1
    · rw [List.find?_cons_of_neg _ (by simpa using ha)] at hf
      rcases List.mem_cons.mp hq with rfl | hq
      · exact absurd hqid ha
      · exact ih hnd.2 hf q hq hqid

theorem endGame_players_alive (r : BattleRoyaleRoom) :
    ∀ q ∈ (endGame r).state.players, ∃ q₀ ∈ r.state.players, q.alive = q₀.alive := by
  simp only [endGame, List.mem_map]
  rintro q ⟨a, ha, rfl⟩
  refine ⟨a, ha, ?_⟩
  split <;> rfl

theorem endGame_aliveConsistent (r : BattleRoyaleRoom)
    (h : AliveConsistent r) : AliveConsistent (endGame r) := by
  unfold AliveConsistent countAlivePlayers at *
  simp only [endGame]
  rw [countAliveL_map_of_alive]
  · exact h
  · intro p
    split <;> rfl

theorem endGame_uniq (r : BattleRoyaleRoom) (h : UniqueIds r) :
    UniqueIds (endGame r) := by
  unfold UniqueIds at *
  simp only [endGame]
  rw [map_player_id]
  · exact h
  · intro p
    split <;> rfl

theorem endGame_phase (r : BattleRoyaleRoom) :
    (endGame r).state.phase = "finished" := by
  simp [endGame]

theorem checkWinCondition_inv (r : BattleRoyaleRoom)
    (h1 : AliveConsistent r) (h3 : UniqueIds r)
    (hph : r.state.phase = "playing") :
    AliveConsistent (checkWinCondition r) ∧ UniqueIds (checkWinCondition r) ∧
      ((checkWinCondition r).state.phase = "playing" ∨
       (checkWinCondition r).state.phase = "finished") := by
  simp only [checkWinCondition]
  split
  · exact ⟨h1, h3, Or.inl hph⟩
  · split <;> split <;>
      first
        | exact ⟨endGame_aliveConsistent r h1, endGame_uniq r h3, Or.inr (endGame_phase r)⟩
        | exact ⟨h1, h3, Or.inl hph⟩

theorem startCountdown_inv (now : ℤ) (rng : RNG) (r : BattleRoyaleRoom)
    (h : RoomInv r) : RoomInv (startCountdown now rng r).1 := by
  obtain ⟨h1, h2, h3⟩ := h
  simp only [startCountdown]
  split
  · exact ⟨h1, h2, h3⟩
  · next hw =>
    rw [not_not] at hw
    have hall : ∀ p ∈ r.state.players, p.alive = true := h2 (Or.inl hw)
    split
    · exact (startGame_inv now rng _ hall h3).1
    · refine ⟨h1, ?_, h3⟩
      intro _ p hp
      exact hall p hp

theorem checkStartConditions_inv (now : ℤ) (rng : RNG) (r : BattleRoyaleRoom)
    (h : RoomInv r) : RoomInv (checkStartConditions now rng r).1 := by
  simp only [checkStartConditions]
  split
  · exact h
  · split
    · exact startCountdown_inv now rng r h
    · exact h

theorem countdownTick_inv (now : ℤ) (rng : RNG) (r : BattleRoyaleRoom)
    (h : RoomInv r) (hph : r.state.phase = "countdown") :
    RoomInv (countdownTick now rng r).1 := by
  obtain ⟨h1, h2, h3⟩ := h
  have hall : ∀ p ∈ r.state.players, p.alive = true := h2 (Or.inr hph)
  simp only [countdownTick]
  split
  · exact (startGame_inv now rng _ hall h3).1
  · refine ⟨h1, ?_, h3⟩
    intro _ p hp
    exact hall p hp

theorem onJoin_inv (sid : String) (optName : Option String) (now : ℤ) (rng : RNG)
    (r : BattleRoyaleRoom) (h : RoomInv r) :
    RoomInv (onJoin sid optName now rng r).1 := by
  obtain ⟨h1, h2, h3⟩ := h
  apply checkStartConditions_inv
  refine ⟨rfl, ?_, ?_⟩
  · intro hph q hq
    rcases mem_setPlayerList _ _ q hq with rfl | hq
    · rfl
    · exact h2 hph q hq
  · exact setPlayerList_nodup _ _ h3

theorem leave_survivors (ps : List Player) (sid : String) :
    ∀ q ∈ (ps.map (fun p => if p.id = sid then { p with alive := false } else p)).filter
        (fun p => ¬(p.id = sid)), q ∈ ps := by
  intro q hq
  rw [List.mem_filter] at hq
  obtain ⟨hm, hpred⟩ := hq
  rw [List.mem_map] at hm
  obtain ⟨a, ha, rfl⟩ := hm
  by_cases hcase : a.id = sid
  · exfalso
    revert hpred
    simp [hcase]
  · simpa [hcase] using ha

theorem leave_nodup (ps : List Player) (sid : String)
    (h : (ps.map (fun q => q.id)).Nodup) :
    (((ps.map (fun p => if p.id = sid then { p with alive := false } else p)).filter
        (fun p => ¬(p.id = sid))).map (fun q => q.id)).Nodup := by
  have hids : (ps.map (fun p => if p.id = sid then { p with alive := false } else p)).map
      (fun q => q.id) = ps.map (fun q => q.id) := by
    apply map_player_id
    intro p
    by_cases hcase : p.id = sid <;> simp [hcase]
  have hsub := (List.filter_sublist
    (l := ps.map (fun p => if p.id = sid then { p with alive := false } else p))
    (p := fun p => ¬(p.id = sid))).map (fun q => q.id)
  rw [hids] at hsub
  exact h.sublist hsub

theorem checkWinCondition_inv2 (r1 : BattleRoyaleRoom)
    (h1 : AliveConsistent r1) (h2 : AllAliveInLobby r1) (h3 : UniqueIds r1) :
    RoomInv (checkWinCondition r1) := by
  by_cases hph : r1.state.phase = "playing"
  · obtain ⟨g1, g3, gph⟩ := checkWinCondition_inv r1 h1 h3 hph
    refine ⟨g1, ?_, g3⟩
    intro hc
    rcases gph with gp | gp <;> rw [gp] at hc <;> rcases hc with hc | hc <;> simp at hc
  · have heq : checkWinCondition r1 = r1 := by
      unfold checkWinCondition
      rw [if_pos (by simpa using hph)]
    rw [heq]
    exact ⟨h1, h2, h3⟩

theorem onLeave_inv (sid : String) (r : BattleRoyaleRoom) (h : RoomInv r) :
    RoomInv (onLeave sid r) := by
  obtain ⟨h1, h2, h3⟩ := h
  simp only [onLeave]
  apply checkWinCondition_inv2
  · rfl
  · intro hc q hq
    exact h2 (by simpa using hc) q (leave_survivors _ _ q hq)
  · exact leave_nodup _ _ h3

theorem eliminatePlayer_inv (now : ℤ) (sid : String) (r : BattleRoyaleRoom)
    (h1 : AliveConsistent r) (h3 : UniqueIds r) :
    AliveConsistent (eliminatePlayer now sid r) ∧
    UniqueIds (eliminatePlayer now sid r) ∧
    (eliminatePlayer now sid r).state.phase = r.state.phase := by
  unfold eliminatePlayer
  cases hf : findPlayer r sid with
  | none => exact ⟨h1, h3, rfl⟩
  | some player =>
    simp only
    split
    · exact ⟨h1, h3, rfl⟩
    · next halive =>
      rw [Bool.not_eq_true] at halive
      rw [Bool.not_eq_false] at halive
      have hpid : player.id = sid := findPlayer_id r sid player hf
      have hcid : (eliminateCore now r.state.playersAlive player).id = sid :=
        (eliminateCore_id now r.state.playersAlive player).trans hpid
      have huniq' : UniqueIds { r with state := { r.state with
          players := updateById r.state.players sid
            (eliminateCore now r.state.playersAlive player) } } := by
        unfold UniqueIds
        simp only
        rw [updateById_map_id _ _ _ hcid]
        exact h3
      split
      · next hal =>
        refine ⟨?_, huniq', rfl⟩
        unfold AliveConsistent countAlivePlayers at *
        simp only
        rw [countAliveL_updateById]
        · exact h1
        · intro q hq hqid
          rw [nodup_find_unique r.state.players sid player h3 hf q hq hqid]
          rw [halive, hal]
      · exact ⟨rfl, huniq', rfl⟩

theorem tickOnePlayer_inv (now : ℤ) (r : BattleRoyaleRoom) (sid : String)
    (h1 : AliveConsistent r) (h3 : UniqueIds r) :
    AliveConsistent (tickOnePlayer now r sid) ∧
    UniqueIds (tickOnePlayer now r sid) ∧
    (tickOnePlayer now r sid).state.phase = r.state.phase := by
  unfold tickOnePlayer
  cases hf : findPlayer r sid with
  | none => exact ⟨h1, h3, rfl⟩
  | some p =>
    simp only
    split
    · exact ⟨h1, h3, rfl⟩
    · next halive =>
      rw [Bool.not_eq_true] at halive
      rw [Bool.not_eq_false] at halive
      have hpid : p.id = sid := findPlayer_id r sid p hf
      have hrid : (updatePlayer now r.state.gravity r.state.pipes p).1.id = sid :=
        (updatePlayer_id now r.state.gravity r.state.pipes p).trans hpid
      have h1' : AliveConsistent { r with state := { r.state with
          players := updateById r.state.players sid
            (updatePlayer now r.state.gravity r.state.pipes p).1,
          pipes := (updatePlayer now r.state.gravity r.state.pipes p).2.1 } } := by
        unfold AliveConsistent countAlivePlayers at *
        simp only
        rw [countAliveL_updateById]
        · exact h1
        · intro q hq hqid
          rw [nodup_find_unique r.state.players sid p h3 hf q hq hqid]
          exact (updatePlayer_alive now r.state.gravity r.state.pipes p).symm
      have h3' : UniqueIds { r with state := { r.state with
          players := updateById r.state.players sid
            (updatePlayer now r.state.gravity r.state.pipes p).1,
          pipes := (updatePlayer now r.state.gravity r.state.pipes p).2.1 } } := by
        unfold UniqueIds
        simp only
        rw [updateById_map_id _ _ _ hrid]
        exact h3
      split
      · exact eliminatePlayer_inv now sid _ h1' h3'
      · exact ⟨h1', h3', rfl⟩

theorem foldTick_inv (now : ℤ) (ids : List String) (r : BattleRoyaleRoom)
    (h1 : AliveConsistent r) (h3 : UniqueIds r) :
    AliveConsistent (ids.foldl (tickOnePlayer now) r) ∧
    UniqueIds (ids.foldl (tickOnePlayer now) r) ∧
    (ids.foldl (tickOnePlayer now) r).state.phase = r.state.phase := by
  induction ids generalizing r with
  | nil => exact ⟨h1, h3, rfl⟩
  | cons sid rest ih =>
    simp only [List.foldl_cons]
    obtain ⟨g1, g3, gph⟩ := tickOnePlayer_inv now r sid h1 h3
    obtain ⟨k1, k3, kph⟩ := ih _ g1 g3
    exact ⟨k1, k3, kph.trans gph⟩

theorem updatePipes_state (rng : RNG) (r : BattleRoyaleRoom) :
    (updatePipes rng r).1.state.players = r.state.players ∧
    (updatePipes rng r).1.state.phase = r.state.phase ∧
    (updatePipes rng r).1.state.playersAlive = r.state.playersAlive := by
  simp only [updatePipes]
  split
  · simp [generatePipe]
  · simp

theorem update_inv (now : ℤ) (rng : RNG) (r : BattleRoyaleRoom)
    (h : RoomInv r) : RoomInv (update now rng r).1 := by
  obtain ⟨h1, h2, h3⟩ := h
  simp only [update]
  split
  · exact ⟨h1, h2, h3⟩
  · next hpl =>
    rw [not_not] at hpl
    set r1 : BattleRoyaleRoom := { r with state :=
      { r.state with gameTime := now - r.state.startTime } } with hr1
    obtain ⟨up, uph, upa⟩ := updatePipes_state rng r1
    have h1' : AliveConsistent (updatePipes rng r1).1 := by
      unfold AliveConsistent countAlivePlayers at *
      rw [up, upa]
      exact h1
    have h3' : UniqueIds (updatePipes rng r1).1 := by
      unfold UniqueIds at *
      rw [up]
      exact h3
    have hph' : (updatePipes rng r1).1.state.phase = "playing" := by
      rw [uph]
      exact hpl
    obtain ⟨k1, k3, kph⟩ := foldTick_inv now
      ((updatePipes rng r1).1.state.players.map (fun p => p.id)) _ h1' h3'
    apply checkWinCondition_inv2 _ k1 _ k3
    intro hc
    rw [kph, hph'] at hc
    rcases hc with hc | hc <;> simp at hc

theorem resetRoom_inv (now : ℤ) (rng : RNG) (r : BattleRoyaleRoom)
    (h3 : UniqueIds r) : RoomInv (resetRoom now rng r).1 := by
  simp only [resetRoom]
  apply checkStartConditions_inv
  refine ⟨rfl, ?_, ?_⟩
  · intro _ q hq
    simp only [List.mem_map] at hq
    obtain ⟨a, _, rfl⟩ := hq
    rfl
  · unfold UniqueIds at *
    simp only
    rw [map_player_id]
    · exact h3
    · intro p
      rfl

theorem handleFlap_inv (sid : String) (r : BattleRoyaleRoom) (h : RoomInv r) :
    RoomInv (handleFlap sid r) := by
  obtain ⟨h1, h2, h3⟩ := h
  unfold handleFlap
  cases hf : findPlayer r sid with
  | none => exact ⟨h1, h2, h3⟩
  | some player =>
    simp only
    split
    · exact ⟨h1, h2, h3⟩
    · split
      · exact ⟨h1, h2, h3⟩
      · have hpid : player.id = sid := findPlayer_id r sid player hf
        refine ⟨?_, ?_, ?_⟩
        · unfold AliveConsistent countAlivePlayers at *
          simp only
          rw [countAliveL_updateById]
          · exact h1
          · intro q hq hqid
            rw [nodup_find_unique r.state.players sid player h3 hf q hq hqid]
        · intro hc q hq
          rcases mem_updateById _ _ _ q hq with rfl | hq
          · exact h2 (by simpa using hc) player (findPlayer_mem r sid player hf)
          · exact h2 (by simpa using hc) q hq
        · unfold UniqueIds
          simp only
          rw [updateById_map_id]
          · exact h3
          · exact hpid

theorem handleSetName_inv (sid n : String) (r : BattleRoyaleRoom) (h : RoomInv r) :
    RoomInv (handleSetName sid n r) := by
  obtain ⟨h1, h2, h3⟩ := h
  unfold handleSetName
  cases hf : findPlayer r sid with
  | none => exact ⟨h1, h2, h3⟩
  | some player =>
    simp only
    have hpid : player.id = sid := findPlayer_id r sid player hf
    refine ⟨?_, ?_, ?_⟩
    · unfold AliveConsistent countAlivePlayers at *
      simp only
      rw [countAliveL_updateById]
      · exact h1
      · intro q hq hqid
        rw [nodup_find_unique r.state.players sid player h3 hf q hq hqid]
    · intro hc q hq
      rcases mem_updateById _ _ _ q hq with rfl | hq
      · exact h2 (by simpa using hc) player (findPlayer_mem r sid player hf)
      · exact h2 (by simpa using hc) q hq
    · unfold UniqueIds
      simp only
      rw [updateById_map_id]
      · exact h3
      · exact hpid

/-! ## Reachable room states

One constructor per event the Colyseus runtime can deliver to the room:
join/leave hooks, the 60 Hz tick, the one-second countdown interval (which
only exists while the phase is `countdown`), the scheduled end-of-game reset,
and the three message handlers. -/

inductive Reachable : BattleRoyaleRoom → Prop
  | created (debugMode : Bool) : Reachable (initialRoom debugMode)
  | join (sid : String) (optName : Option String) (now : ℤ) (rng : RNG)
      {r : BattleRoyaleRoom} (h : Reachable r) :
      Reachable (onJoin sid optName now rng r).1
  | leave (sid : String) {r : BattleRoyaleRoom} (h : Reachable r) :
      Reachable (onLeave sid r)
  | tick (now : ℤ) (rng : RNG) {r : BattleRoyaleRoom} (h : Reachable r) :
      Reachable (update now rng r).1
  | cdTick (now : ℤ) (rng : RNG) {r : BattleRoyaleRoom} (h : Reachable r)
      (hph : r.state.phase = "countdown") :
      Reachable (countdownTick now rng r).1
  | resetFired (now : ℤ) (rng : RNG) {r : BattleRoyaleRoom} (h : Reachable r) :
      Reachable (resetRoom now rng r).1
  | flap (sid : String) {r : BattleRoyaleRoom} (h : Reachable r) :
      Reachable (handleFlap sid r)
  | setName (sid n : String) {r : BattleRoyaleRoom} (h : Reachable r) :
      Reachable (handleSetName sid n r)
  | ready (now : ℤ) (rng : RNG) {r : BattleRoyaleRoom} (h : Reachable r) :
      Reachable (checkStartConditions now rng r).1

theorem reachable_roomInv (r : BattleRoyaleRoom) (h : Reachable r) : RoomInv r := by
  induction h with
  | created debugMode =>
    refine ⟨rfl, ?_, ?_⟩
    · intro _ p hp
      simp [initialRoom] at hp
    · unfold UniqueIds initialRoom
      simp
  | join sid optName now rng h ih => exact onJoin_inv sid optName now rng _ ih
  | leave sid h ih => exact onLeave_inv sid _ ih
  | tick now rng h ih => exact update_inv now rng _ ih
  | cdTick now rng h hph ih => exact countdownTick_inv now rng _ ih hph
  | resetFired now rng h ih => exact resetRoom_inv now rng _ ih.2.2
  | flap sid h ih => exact handleFlap_inv sid _ ih
  | setName sid n h ih => exact handleSetName_inv sid n _ ih
  | ready now rng h ih => exact checkStartConditions_inv now rng _ ih

/-! ## Claim C3 -/

/-- Claim C3: after every join, leave, and elimination event the stored
`playersAlive` counter equals the count, recomputed from scratch over the
player map, of players with `alive == true`; the equality holds in every
state reachable by any interleaving of ticks (which contain the elimination
events), joins, and leaves (first conjunct), and the elimination procedure
itself preserves it whenever invoked on a consistent room (second
conjunct). -/
theorem claim_C3 :
    (∀ r : BattleRoyaleRoom, Reachable r →
      r.state.playersAlive = countAlivePlayers r.state) ∧
    (∀ (now : ℤ) (sid : String) (r : BattleRoyaleRoom),
      r.state.playersAlive = countAlivePlayers r.state → UniqueIds r →
      (eliminatePlayer now sid r).state.playersAlive =
        countAlivePlayers (eliminatePlayer now sid r).state) := by
  constructor
  · intro r h
    exact (reachable_roomInv r h).1
  · intro now sid r h1 h3
    exact (eliminatePlayer_inv now sid r h1 h3).1

/-- A concrete mid-round room used to exercise the elimination procedure. -/
def roomC3 : BattleRoyaleRoom :=
  { state :=
      { phase := "playing", playersAlive := 2, totalPlayers := 2,
        players := [{ id := "a", lives := 1 }, { id := "b" }] },
    debugMode := false }

theorem claim_C3_witness :
    ((onJoin "a" none 0 ⟨[]⟩ (initialRoom false)).1.state.playersAlive =
      countAlivePlayers (onJoin "a" none 0 ⟨[]⟩ (initialRoom false)).1.state) ∧
    ((eliminatePlayer 5000 "a" roomC3).state.playersAlive =
      countAlivePlayers (eliminatePlayer 5000 "a" roomC3).state) :=
  ⟨claim_C3.1 _ (Reachable.join "a" none 0 ⟨[]⟩ (Reachable.created false)),
   claim_C3.2 5000 "a" roomC3 (by decide) (by unfold UniqueIds; decide)⟩

/-! ## Claim C1 -/

/-- A `finished` room holding one fully-eliminated player (`lives = 0`). -/
def roomC1 : BattleRoyaleRoom :=
  { state :=
      { phase := "finished", playersAlive := 0, totalPlayers := 1,
        winnerId := "",
        players := [{ id := "a", lives := 0, score := 7, alive := false, rank := 2,
                      vision := 0.05, visionDegradationMultiplier := 1.6 }] },
    debugMode := false }

/-- Claim C1 (counterexample): after the reset procedure runs on a finished
room, the room is back in `waiting` with no pipes and the surviving roster
has `score == 0` and `alive == true` — but the roster player's `lives` is
*not* `STARTING_LIVES`: `resetRoom` does not touch `lives`. -/
theorem claim_C1_counterexample :
    (resetRoom 0 ⟨[]⟩ roomC1).1.state.phase = "waiting" ∧
    (resetRoom 0 ⟨[]⟩ roomC1).1.state.pipes = [] ∧
    (∀ p ∈ (resetRoom 0 ⟨[]⟩ roomC1).1.state.players,
      p.score = 0 ∧ p.alive = true) ∧
    ¬(∀ p ∈ (resetRoom 0 ⟨[]⟩ roomC1).1.state.players,
      p.lives = STARTING_LIVES) := by
  refine ⟨by decide, by decide, by decide, by decide⟩

theorem checkStartConditions_stall (now : ℤ) (rng : RNG) (r : BattleRoyaleRoom)
    (hph : r.state.phase = "waiting")
    (hlt : r.state.players.length < MIN_PLAYERS_TO_START r.debugMode) :
    (checkStartConditions now rng r).1 = r := by
  unfold checkStartConditions
  rw [if_neg (by simp [hph]), if_neg (Nat.not_le.mpr hlt)]

/-- Claim C1 (amended): the reset procedure returns the room to `waiting`
(provided the roster is below the start minimum, otherwise the countdown
restarts immediately), clears the pipes, and resets every roster player's
`score` to `0`, `alive` to `true` and `rank` to `0`; but each player's
`lives` keeps its pre-reset value — `lives` is restored to `STARTING_LIVES`
only by `startGame` when the next countdown completes. -/
theorem claim_C1_amended (now : ℤ) (rng : RNG) (r : BattleRoyaleRoom)
    (hlt : r.state.players.length < MIN_PLAYERS_TO_START r.debugMode) :
    (resetRoom now rng r).1.state.phase = "waiting" ∧
    (resetRoom now rng r).1.state.pipes = [] ∧
    (∀ p ∈ (resetRoom now rng r).1.state.players,
      p.score = 0 ∧ p.alive = true ∧ p.rank = 0) ∧
    (resetRoom now rng r).1.state.players.map (fun p => p.lives) =
      r.state.players.map (fun p => p.lives) := by
  unfold resetRoom
  rw [checkStartConditions_stall _ _ _ rfl
    (by simpa using hlt)]
  refine ⟨rfl, rfl, ?_, ?_⟩
  · intro p hp
    obtain ⟨a, _, rfl⟩ := List.mem_map.mp hp
    exact ⟨rfl, rfl, rfl⟩
  · rw [List.map_map]
    exact List.map_congr_left fun a _ => rfl

theorem claim_C1_witness :
    roomC1.state.players.length < MIN_PLAYERS_TO_START roomC1.debugMode ∧
    ((resetRoom 0 ⟨[]⟩ roomC1).1.state.players.map (fun p => p.lives) =
      roomC1.state.players.map (fun p => p.lives)) :=
  ⟨by decide, (claim_C1_amended 0 ⟨[]⟩ roomC1 (by decide)).2.2.2⟩

/-! ## Claim C7 -/

/-- A playing room whose tracker sits between `1 - PIPE_DISTANCE` and
`1.1 - PIPE_DISTANCE` after the next advance. -/
def roomC7 : BattleRoyaleRoom :=
  { state := { phase := "playing", players := [], pipes := [] },
    lastPipeX := 0.655, debugMode := false }

/-- Claim C7 (counterexample): obstacles are spawned at `x = 1.1` (and the
tracker resets there), yet after a tick in which the tracker has fallen to
`0.65 < 1.1 - PIPE_DISTANCE` no obstacle is generated — the code's
generation threshold is `1 - PIPE_DISTANCE`, not `spawn_x - PIPE_DISTANCE`. -/
theorem claim_C7_counterexample :
    (updatePipes ⟨[]⟩ roomC7).1.lastPipeX < 1.1 - PIPE_DISTANCE ∧
    (updatePipes ⟨[]⟩ roomC7).1.state.pipes.length = 0 ∧
    (updatePipes ⟨[]⟩ roomC7).1.lastPipeX ≠ 1.1 := by
  refine ⟨by with_unfolding_all decide, by with_unfolding_all decide,
    by with_unfolding_all decide⟩

/-- Claim C7 (amended): the tick generates a new obstacle exactly when the
tracked spawn position, advanced by the scroll speed, falls below
`1 - PIPE_DISTANCE`; on generation exactly one obstacle (at the spawn
x-coordinate `1.1`, unpassed) is appended and the tracker resets to `1.1`;
otherwise the pipe list is just the scrolled/despawned one and the tracker
keeps its advanced value. -/
theorem claim_C7_amended (rng : RNG) (r : BattleRoyaleRoom) :
    (r.lastPipeX - r.state.gameSpeed < 1 - PIPE_DISTANCE →
      (updatePipes rng r).1.lastPipeX = 1.1 ∧
      ∃ newPipe : Pipe, newPipe.x = 1.1 ∧ newPipe.passed = false ∧
        (updatePipes rng r).1.state.pipes = movedPipes r ++ [newPipe]) ∧
    (¬(r.lastPipeX - r.state.gameSpeed < 1 - PIPE_DISTANCE) →
      (updatePipes rng r).1.lastPipeX = r.lastPipeX - r.state.gameSpeed ∧
      (updatePipes rng r).1.state.pipes = movedPipes r) := by
  constructor
  · intro hcross
    unfold updatePipes
    rw [if_pos (by simpa using hcross)]
    unfold generatePipe
    exact ⟨rfl, { x := 1.1, holes := (genHolesAndItem rng).1, passed := false },
      rfl, rfl, rfl⟩
  · intro hcross
    unfold updatePipes
    rw [if_neg (by simpa using hcross)]
    exact ⟨rfl, rfl⟩

/-- A playing room whose tracker crosses the real threshold this tick. -/
def roomC7cross : BattleRoyaleRoom :=
  { state := { phase := "playing", players := [], pipes := [] },
    lastPipeX := 0.604, debugMode := false }

theorem claim_C7_witness :
    roomC7cross.lastPipeX - roomC7cross.state.gameSpeed < 1 - PIPE_DISTANCE ∧
    ((updatePipes ⟨[]⟩ roomC7cross).1.lastPipeX = 1.1 ∧
      ∃ newPipe : Pipe, newPipe.x = 1.1 ∧ newPipe.passed = false ∧
        (updatePipes ⟨[]⟩ roomC7cross).1.state.pipes =
          movedPipes roomC7cross ++ [newPipe]) :=
  ⟨by with_unfolding_all decide,
   (claim_C7_amended ⟨[]⟩ roomC7cross).1 (by with_unfolding_all decide)⟩

/-! ## Claim C9 -/

/-- A falling player (large positive = downward velocity). -/
def playerC9fall : Player := { id := "c9a", velocityY := 1 }

/-- A rising player (large negative = upward velocity). -/
def playerC9rise : Player := { id := "c9b", velocityY := -1 }

/-- Claim C9 (counterexample): the integration clamps a fast fall to
`0.015` and a fast rise to `-0.02`; positive velocity is downward (gravity
is positive and the floor sits at the larger `y`), so the downward bound's
magnitude `0.015` is *smaller* than the upward bound's `0.02`, contradicting
the claimed steeper-downward asymmetry. -/
theorem claim_C9_counterexample :
    (updatePlayer 10000 GRAVITY [] playerC9fall).1.velocityY = 0.015 ∧
    (updatePlayer 10000 GRAVITY [] playerC9rise).1.velocityY = -0.02 ∧
    ¬(|(0.015 : ℚ)| > |(-0.02 : ℚ)|) := by
  refine ⟨by with_unfolding_all decide, by with_unfolding_all decide, ?_⟩
  rw [abs_of_nonneg (by norm_num : (0:ℚ) ≤ 0.015),
    abs_of_nonpos (by norm_num : (-0.02:ℚ) ≤ 0)]
  norm_num

theorem scanHoles_velocityY (pipeX : ℚ) (p : Player) (holes : List Hole) :
    (scanHoles pipeX p holes).1.velocityY = p.velocityY := by
  induction holes with
  | nil => simp [scanHoles]
  | cons hole rest ih =>
    simp only [scanHoles]
    split
    · split <;> simp
    · simpa using ih

theorem checkPipes_velocityY (inv : Bool) (p : Player) (pipes : List Pipe) :
    (checkPipes inv p pipes).1.velocityY = p.velocityY := by
  induction pipes generalizing p with
  | nil => simp [checkPipes]
  | cons pipe rest ih =>
    simp only [checkPipes]
    split
    · split
      · simp [scanHoles_velocityY]
      · split <;> · rw [ih]; simp [scanHoles_velocityY]
    · simpa using ih p

/-- Claim C9 (amended): each tick a living player's velocity first
accumulates the gravitational acceleration and is then clamped to the
asymmetric interval `[-0.02, 0.015]`; every velocity leaving the tick lies
in that interval, and whenever no boundary or pipe interferes the stored
velocity and the position advance are exactly the clamped
gravity-accumulated value — but the *upward* bound (`-0.02`, negative
velocity is upward) is the steeper one, `|-0.02| > |0.015|`. -/
theorem checkCollisionsRest_velocityY (inv : Bool) (pipes : List Pipe) (p : Player) :
    (checkCollisionsRest inv pipes p).1.velocityY = p.velocityY ∨
    (checkCollisionsRest inv pipes p).1.velocityY = 0 := by
  unfold checkCollisionsRest
  split
  · right
    rw [checkPipes_velocityY]
  · left
    rw [checkPipes_velocityY]

theorem checkCollisions_velocityY (now : ℤ) (pipes : List Pipe) (p : Player) :
    (checkCollisions now pipes p).1.velocityY = p.velocityY ∨
    (checkCollisions now pipes p).1.velocityY = qmin 0 p.velocityY ∨
    (checkCollisions now pipes p).1.velocityY = 0 := by
  unfold checkCollisions
  simp only
  split
  · split
    · rcases checkCollisionsRest_velocityY
        ((now - p.lastHitTime < RESPAWN_INVULNERABILITY_TIME : Bool)) pipes
        { p with y := 0.85, velocityY := qmin 0 p.velocityY } with h | h
      · right; left; exact h
      · right; right; exact h
    · left; rfl
  · rcases checkCollisionsRest_velocityY
      ((now - p.lastHitTime < RESPAWN_INVULNERABILITY_TIME : Bool)) pipes p with h | h
    · left; exact h
    · right; right; exact h

theorem updatePlayer_velocityY (now : ℤ) (g : ℚ) (pipes : List Pipe) (p : Player) :
    (updatePlayer now g pipes p).1.velocityY = integrateVelocity g p.velocityY ∨
    (updatePlayer now g pipes p).1.velocityY = qmin 0 (integrateVelocity g p.velocityY) ∨
    (updatePlayer now g pipes p).1.velocityY = 0 := by
  unfold updatePlayer
  simp only
  exact checkCollisions_velocityY now pipes _

/-- Claim C9 (amended): each tick a living player's velocity first
accumulates the gravitational acceleration and is then clamped to the
asymmetric interval `[-0.02, 0.015]`; every velocity leaving the tick lies
in that interval, and whenever no boundary or pipe interferes the stored
velocity and the position advance are exactly the clamped
gravity-accumulated value — but the *upward* bound (`-0.02`, negative
velocity is upward) is the steeper one, `|-0.02| > |0.015|`. -/
theorem claim_C9_amended :
    (∀ (now : ℤ) (g : ℚ) (pipes : List Pipe) (p : Player),
      -0.02 ≤ (updatePlayer now g pipes p).1.velocityY ∧
      (updatePlayer now g pipes p).1.velocityY ≤ 0.015) ∧
    (∀ (now : ℤ) (g : ℚ) (p : Player),
      0.02 ≤ p.y + integrateVelocity g p.velocityY →
      p.y + integrateVelocity g p.velocityY ≤ 0.85 →
      (updatePlayer now g [] p).1.velocityY = integrateVelocity g p.velocityY ∧
      (updatePlayer now g [] p).1.y = p.y + integrateVelocity g p.velocityY) ∧
    |(-0.02 : ℚ)| > |(0.015 : ℚ)| := by
  have hbounds : ∀ (g v : ℚ),
      -0.02 ≤ integrateVelocity g v ∧ integrateVelocity g v ≤ 0.015 := by
    intro g v
    unfold integrateVelocity
    rw [qmax_eq_max, qmin_eq_min]
    exact ⟨le_max_left _ _, max_le (by norm_num) (min_le_left _ _)⟩
  refine ⟨?_, ?_, ?_⟩
  · intro now g pipes p
    obtain ⟨hlo, hhi⟩ := hbounds g p.velocityY
    rcases updatePlayer_velocityY now g pipes p with h | h | h <;> rw [h]
    · exact ⟨hlo, hhi⟩
    · rw [qmin_eq_min]
      exact ⟨le_min (by norm_num) hlo, (min_le_left _ _).trans (by norm_num)⟩
    · constructor <;> norm_num
  · intro now g p h02 h85
    unfold updatePlayer checkCollisions checkCollisionsRest
    simp only
    rw [if_neg (not_lt.mpr h85), if_neg (not_lt.mpr h02)]
    simp [checkPipes]
  · rw [abs_of_nonneg (by norm_num : (0:ℚ) ≤ 0.015),
      abs_of_nonpos (by norm_num : (-0.02:ℚ) ≤ 0)]
    norm_num

/-- A mid-air player far from both boundaries. -/
def playerC9mid : Player := { id := "c9c" }

theorem claim_C9_witness :
    (-0.02 ≤ (updatePlayer 0 GRAVITY [] playerC9fall).1.velocityY ∧
      (updatePlayer 0 GRAVITY [] playerC9fall).1.velocityY ≤ 0.015) ∧
    ((updatePlayer 0 GRAVITY [] playerC9mid).1.velocityY =
        integrateVelocity GRAVITY playerC9mid.velocityY ∧
      (updatePlayer 0 GRAVITY [] playerC9mid).1.y =
        playerC9mid.y + integrateVelocity GRAVITY playerC9mid.velocityY) :=
  ⟨claim_C9_amended.1 0 GRAVITY [] playerC9fall,
   claim_C9_amended.2.1 0 GRAVITY playerC9mid
     (by with_unfolding_all decide) (by with_unfolding_all decide)⟩

/-! ## Claim C2 -/

/-- A room in mid-round: one live player, no pipes nearby. -/
def roomC2 : BattleRoyaleRoom :=
  { state :=
      { phase := "playing", playersAlive := 1, totalPlayers := 1,
        startTime := 0, players := [{ id := "p1" }], pipes := [] },
    lastPipeX := 5, debugMode := false }

/-- `roomC2` right after `"p2"` joins mid-round. -/
def roomC2j : BattleRoyaleRoom :=
  { state :=
      { phase := "playing", countdown := 3, startTime := 0, gameTime := 0,
        playersAlive := 2, totalPlayers := 2, winnerId := "",
        players := [{ id := "p1" },
                    { id := "p2", name := "Bob", color := "red" }],
        pipes := [] },
    lastPipeX := 5, debugMode := false }

/-- `roomC2j` after one tick of the game loop. -/
def roomC2t : BattleRoyaleRoom :=
  { state :=
      { phase := "playing", countdown := 3, startTime := 0, gameTime := 3000,
        playersAlive := 2, totalPlayers := 2, winnerId := "",
        players :=
          [{ id := "p1", y := 0.5004, velocityY := 0.0004, rotation := 9,
             vision := 0.998 },
           { id := "p2", name := "Bob", color := "red", y := 0.5004,
             velocityY := 0.0004, rotation := 9, vision := 0.998 }],
        pipes := [] },
    lastPipeX := 4.995, debugMode := false }

theorem onJoin_roomC2 : (onJoin "p2" (some "Bob") 1000 ⟨[]⟩ roomC2).1 = roomC2j := by
  simp +decide [onJoin, checkStartConditions, setPlayerList, updateById,
    countAliveL, roomC2, roomC2j, BIRD_COLORS]

/-- `roomC2j` after the tick's `gameTime` stamp and `updatePipes`. -/
def roomC2m : BattleRoyaleRoom :=
  { state :=
      { phase := "playing", countdown := 3, startTime := 0, gameTime := 3000,
        playersAlive := 2, totalPlayers := 2, winnerId := "",
        players := [{ id := "p1" },
                    { id := "p2", name := "Bob", color := "red" }],
        pipes := [] },
    lastPipeX := 4.995, debugMode := false }

/-- `roomC2m` after the first player's physics update. -/
def roomC2m1 : BattleRoyaleRoom :=
  { state :=
      { phase := "playing", countdown := 3, startTime := 0, gameTime := 3000,
        playersAlive := 2, totalPlayers := 2, winnerId := "",
        players := [{ id := "p1", y := 0.5004, velocityY := 0.0004,
                      rotation := 9, vision := 0.998 },
                    { id := "p2", name := "Bob", color := "red" }],
        pipes := [] },
    lastPipeX := 4.995, debugMode := false }

theorem update_roomC2j : (update 3000 ⟨[]⟩ roomC2j).1 = roomC2t := by
  have hpipes : (updatePipes ⟨[]⟩ { roomC2j with state :=
      { roomC2j.state with gameTime := 3000 - roomC2j.state.startTime } }).1 = roomC2m := by
    simp +decide [updatePipes, movedPipes, roomC2j, roomC2m, GAME_SPEED, PIPE_DISTANCE]
    norm_num
  have hids : roomC2m.state.players.map (fun p => p.id) = ["p1", "p2"] := by
    simp [roomC2m]
  have h1 : tickOnePlayer 3000 roomC2m "p1" = roomC2m1 := by
    simp +decide [tickOnePlayer.eq_def, findPlayer, roomC2m, roomC2m1, updatePlayer,
      integrateVelocity, qmax, qmin, GRAVITY, checkCollisions, checkCollisionsRest,
      checkPipes, scanHoles, VISION_DEGRADATION_RATE, MIN_VISION,
      RESPAWN_INVULNERABILITY_TIME, eliminatePlayer.eq_def, eliminateCore, updateById]
    norm_num
  have h2 : tickOnePlayer 3000 roomC2m1 "p2" = roomC2t := by
    simp +decide [tickOnePlayer.eq_def, findPlayer, roomC2m1, roomC2t, updatePlayer,
      integrateVelocity, qmax, qmin, GRAVITY, checkCollisions, checkCollisionsRest,
      checkPipes, scanHoles, VISION_DEGRADATION_RATE, MIN_VISION,
      RESPAWN_INVULNERABILITY_TIME, eliminatePlayer.eq_def, eliminateCore, updateById]
    norm_num
  have hwin : checkWinCondition roomC2t = roomC2t := by
    simp +decide [checkWinCondition, countAlivePlayers, countAliveL, roomC2t]
  unfold update
  rw [if_neg (by simp [roomC2j])]
  simp only [hpipes, hids, List.foldl_cons, List.foldl_nil, h1, h2, hwin]

/-- Claim C2 (code bug evidence): a player who joins while
`phase = "playing"` is stored with `alive = true` and no spectating marker
(the server schema has no `isSpectating` field at all, although the client
code reads one), and the very next tick of the game loop integrates the
joiner's physics: the joiner's position and velocity are mutated away from
their spawn values during the round in progress. -/
theorem claim_C2_code_bug :
    ((findPlayer (onJoin "p2" (some "Bob") 1000 ⟨[]⟩ roomC2).1 "p2").map
      (fun p => p.alive) = some true) ∧
    ((findPlayer (update 3000 ⟨[]⟩ (onJoin "p2" (some "Bob") 1000 ⟨[]⟩ roomC2).1).1
        "p2").map (fun p => (p.y, p.velocityY)) = some (0.5004, 0.0004)) ∧
    ((0.5004 : ℚ) ≠ 0.5 ∧ (0.0004 : ℚ) ≠ 0) := by
  rw [onJoin_roomC2, update_roomC2j]
  refine ⟨?_, ?_, by norm_num, by norm_num⟩
  · simp +decide [findPlayer, roomC2j]
  · simp +decide [findPlayer, roomC2t]

/-! ## Claims C10 and C5: the elimination procedure -/

theorem find?_updateById (ps : List Player) (sid : String) (p p' : Player)
    (hf : ps.find? (fun q => q.id = sid) = some p) (hid : p'.id = sid) :
    (updateById ps sid p').find? (fun q => q.id = sid) = some p' := by
  induction ps with
  | nil => simp at hf
  | cons a rest ih =>
    unfold updateById at *
    by_cases ha : a.id = sid
    · simp only [List.map_cons, if_pos ha]
      rw [List.find?_cons_of_pos _ (by simpa using hid)]
    · rw [List.find?_cons_of_neg _ (by simpa using ha)] at hf
      simp only [List.map_cons, if_neg ha]
      rw [List.find?_cons_of_neg _ (by simpa using ha)]
      exact ih hf

/-- Claim C10: when the elimination procedure hits a living player whose
lives stay positive after the decrement, exactly the player's `y` (to the
vertical center `0.5`), `velocityY` (to `0`), `rotation` (to `0`), `lives`
(down by one) and `lastHitTime` (stamped `now`) change; `score`, `vision`,
`visionDegradationMultiplier`, `alive`, `rank` and `eliminatedAt` are left
as they were, and nothing else in the room (other players, pipes, counters,
phase, tracker) changes. -/
theorem claim_C10 (now : ℤ) (sid : String) (r : BattleRoyaleRoom) (p : Player)
    (hf : findPlayer r sid = some p) (halive : p.alive = true)
    (hlives : 2 ≤ p.lives) :
    (eliminatePlayer now sid r).state.players =
      updateById r.state.players sid
        { p with y := 0.5, velocityY := 0, rotation := 0,
                 lives := p.lives - 1, lastHitTime := now } ∧
    (eliminatePlayer now sid r).state.playersAlive = r.state.playersAlive ∧
    (eliminatePlayer now sid r).state.pipes = r.state.pipes ∧
    (eliminatePlayer now sid r).state.phase = r.state.phase ∧
    (eliminatePlayer now sid r).lastPipeX = r.lastPipeX := by
  have hmax : max 0 (p.lives - 1) = p.lives - 1 :=
    max_eq_right (by omega)
  have hcore : eliminateCore now r.state.playersAlive p =
      { p with y := 0.5, velocityY := 0, rotation := 0,
               lives := p.lives - 1, lastHitTime := now } := by
    unfold eliminateCore
    rw [if_neg (by simp [halive])]
    simp only
    split
    · rw [hmax]
    · next hc =>
      exfalso
      simp only [hmax] at hc
      omega
  unfold eliminatePlayer
  rw [hf]
  simp only
  have halive2 : (eliminateCore now r.state.playersAlive p).alive = true := by
    rw [hcore]
    simpa using halive
  rw [if_neg (by simp [halive]), if_pos halive2, hcore]
  exact ⟨rfl, rfl, rfl, rfl, rfl⟩

/-- A mid-round room whose first player has two lives. -/
def roomC10 : BattleRoyaleRoom :=
  { state :=
      { phase := "playing", playersAlive := 2, totalPlayers := 2,
        players := [{ id := "a", score := 3, vision := 0.7 }, { id := "b" }] },
    debugMode := false }

theorem claim_C10_witness :
    (eliminatePlayer 4000 "a" roomC10).state.players =
      updateById roomC10.state.players "a"
        { ({ id := "a", score := 3, vision := 0.7 } : Player) with
          y := 0.5, velocityY := 0, rotation := 0,
          lives := (2 : ℤ) - 1, lastHitTime := 4000 } ∧
    (eliminatePlayer 4000 "a" roomC10).state.playersAlive =
      roomC10.state.playersAlive :=
  ⟨(claim_C10 4000 "a" roomC10 { id := "a", score := 3, vision := 0.7 }
      rfl rfl (by decide)).1,
   (claim_C10 4000 "a" roomC10 { id := "a", score := 3, vision := 0.7 }
      rfl rfl (by decide)).2.1⟩

/-- Claim C5: when lethal contact takes a living player's last life, the
elimination procedure sets `alive = false`, stamps `eliminatedAt` and
`lastHitTime` with the current time, assigns `rank` equal to the alive-count
as it stood before this removal (the stored counter, which under the
alive-count invariant is that count — so the last eliminated among N alive
players gets rank N, ranks being assigned in reverse elimination order),
and then recomputes the alive-count. -/
theorem claim_C5 (now : ℤ) (sid : String) (r : BattleRoyaleRoom) (p : Player)
    (hf : findPlayer r sid = some p) (halive : p.alive = true)
    (hlives : p.lives = 1)
    (hcons : r.state.playersAlive = countAlivePlayers r.state) :
    ∃ p', findPlayer (eliminatePlayer now sid r) sid = some p' ∧
      p'.alive = false ∧ p'.lives = 0 ∧
      p'.eliminatedAt = now ∧ p'.lastHitTime = now ∧
      p'.rank = (countAlivePlayers r.state : ℤ) ∧
      (eliminatePlayer now sid r).state.playersAlive =
        countAlivePlayers (eliminatePlayer now sid r).state := by
  have hcore : eliminateCore now r.state.playersAlive p =
      { p with lives := 0, lastHitTime := now, alive := false,
               eliminatedAt := now, rank := (r.state.playersAlive : ℤ) } := by
    unfold eliminateCore
    rw [if_neg (by simp [halive])]
    simp only
    split
    · next hc =>
      exfalso
      simp only [hlives] at hc
      omega
    · simp [hlives]
  unfold eliminatePlayer
  rw [hf]
  simp only
  rw [if_neg (by simp [halive]), hcore, if_neg (by simp)]
  refine ⟨{ p with lives := 0, lastHitTime := now, alive := false, eliminatedAt := now, rank := (r.state.playersAlive : ℤ) },
    ?_, rfl, rfl, rfl, rfl, by simp [hcons], rfl⟩
  exact find?_updateById r.state.players sid p _ hf
    (by simpa using findPlayer_id r sid p hf)

/-- A mid-round room whose first player is on their last life. -/
def roomC5 : BattleRoyaleRoom :=
  { state :=
      { phase := "playing", playersAlive := 3, totalPlayers := 3,
        players := [{ id := "x", lives := 1 }, { id := "y" }, { id := "z" }] },
    debugMode := false }

theorem claim_C5_witness :
    ∃ p', findPlayer (eliminatePlayer 7000 "x" roomC5) "x" = some p' ∧
      p'.alive = false ∧ p'.lives = 0 ∧
      p'.eliminatedAt = 7000 ∧ p'.lastHitTime = 7000 ∧
      p'.rank = (countAlivePlayers roomC5.state : ℤ) ∧
      (eliminatePlayer 7000 "x" roomC5).state.playersAlive =
        countAlivePlayers (eliminatePlayer 7000 "x" roomC5).state :=
  claim_C5 7000 "x" roomC5 { id := "x", lives := 1 } rfl rfl rfl (by decide)

/-! ## Claim C6 -/

/-- Claim C6: collection is per-(player, gap) idempotent.  First conjunct:
when the player occupies a gap holding an uncollected item past the
obstacle's x, one run of the collection path awards the +5 score bonus,
restores vision to 1.0, bumps the degradation multiplier once, and appends
the player to that gap's collector set.  Second conjunct: running the whole
hole scan a second time on its own output changes nothing (the player is
now in the collector set).  Third conjunct: the scan keeps every gap's
collector set duplicate-free, so a collector set never contains
duplicates. -/
theorem claim_C6 :
    (∀ (pipeX : ℚ) (p : Player) (h : Hole) (rest : List Hole),
      p.y - birdSize ≥ h.y - h.size / 2 → p.y + birdSize ≤ h.y + h.size / 2 →
      h.hasItem = true → p.id ∉ h.itemCollectedBy → birdX > pipeX →
      (scanHoles pipeX p (h :: rest)).1.score = p.score + 5 ∧
      (scanHoles pipeX p (h :: rest)).1.vision = 1.0 ∧
      (scanHoles pipeX p (h :: rest)).1.visionDegradationMultiplier =
        p.visionDegradationMultiplier + DEGRADATION_MULTIPLIER_INCREASE ∧
      (scanHoles pipeX p (h :: rest)).2.1 =
        { h with itemCollectedBy := h.itemCollectedBy ++ [p.id] } :: rest) ∧
    (∀ (pipeX : ℚ) (p : Player) (holes : List Hole),
      scanHoles pipeX (scanHoles pipeX p holes).1 (scanHoles pipeX p holes).2.1 =
        scanHoles pipeX p holes) ∧
    (∀ (pipeX : ℚ) (p : Player) (holes : List Hole),
      (∀ hh ∈ holes, hh.itemCollectedBy.Nodup) →
      ∀ h' ∈ (scanHoles pipeX p holes).2.1, h'.itemCollectedBy.Nodup) := by
  refine ⟨?_, ?_, ?_⟩
  · intro pipeX p h rest hge hle hitem hnotin hbx
    have hcont : h.itemCollectedBy.contains p.id = false := by simpa using hnotin
    simp only [scanHoles]
    rw [if_pos ⟨hge, hle⟩, if_pos ⟨hitem, by simpa using hnotin, hbx⟩]
    exact ⟨rfl, rfl, rfl, rfl⟩
  · intro pipeX p holes
    induction holes generalizing p with
    | nil => simp [scanHoles]
    | cons hole rest ih =>
      simp only [scanHoles]
      split
      · next hin =>
        split
        · next hcol =>
          simp only [scanHoles]
          rw [if_pos hin, if_neg (by simp)]
        · next hcol =>
          simp only [scanHoles]
          rw [if_pos hin, if_neg hcol]
      · next hout =>
        have hy := scanHoles_y pipeX p rest
        simp only [scanHoles]
        rw [if_neg (by rw [hy]; exact hout), ih]
  · intro pipeX p holes
    induction holes generalizing p with
    | nil => simp [scanHoles]
    | cons hole rest ih =>
      intro hall h' hmem
      simp only [scanHoles] at hmem
      split at hmem
      · next hin =>
        split at hmem
        · next hcol =>
          simp only [List.mem_cons] at hmem
          rcases hmem with rfl | hmem
          · simp only
            refine List.Nodup.append (hall hole (by simp)) (by simp) ?_
            intro a ha hb
            simp only [List.mem_singleton] at hb
            subst hb
            exact hcol.2.1 (by simpa using ha)
          · exact hall h' (by simp [hmem])
        · next hcol =>
          exact hall h' (by simpa using hmem)
      · next hout =>
        simp only [List.mem_cons] at hmem
        rcases hmem with rfl | hmem
        · exact hall h' (by simp)
        · exact ih _ (fun hh hhm => hall hh (by simp [hhm])) h' hmem

/-- A gap holding an uncollected item, sized to contain the bird. -/
def holeC6 : Hole := { y := 0.5, size := 0.3, hasItem := true, itemCollectedBy := [] }

/-- A player flying level with `holeC6`. -/
def playerC6 : Player := { id := "c6", y := 0.5 }

theorem claim_C6_witness :
    (scanHoles 0.2 playerC6 [holeC6]).1.score = playerC6.score + 5 ∧
    (scanHoles 0.2 playerC6 [holeC6]).2.1 =
      { holeC6 with itemCollectedBy := holeC6.itemCollectedBy ++ [playerC6.id] } :: [] ∧
    scanHoles 0.2 (scanHoles 0.2 playerC6 [holeC6]).1
        (scanHoles 0.2 playerC6 [holeC6]).2.1 = scanHoles 0.2 playerC6 [holeC6] ∧
    (∀ h' ∈ (scanHoles 0.2 playerC6 [holeC6]).2.1, h'.itemCollectedBy.Nodup) := by
  have e := claim_C6.1 0.2 playerC6 holeC6 []
    (by norm_num [playerC6, holeC6, birdSize])
    (by norm_num [playerC6, holeC6, birdSize]) rfl (by simp [holeC6])
    (by norm_num [birdX])
  exact ⟨e.1, e.2.2.2, claim_C6.2.1 0.2 playerC6 [holeC6],
    claim_C6.2.2 0.2 playerC6 [holeC6] (by simp [holeC6])⟩

/-! ## Claim C4: vision machinery -/

theorem scanHoles_vision (pipeX : ℚ) (p : Player) (holes : List Hole) :
    (scanHoles pipeX p holes).1.vision = p.vision ∨
    (scanHoles pipeX p holes).1.vision = 1.0 := by
  induction holes with
  | nil => left; simp [scanHoles]
  | cons hole rest ih =>
    simp only [scanHoles]
    split
    · split
      · right; rfl
      · left; rfl
    · simpa using ih

theorem checkPipes_vision (inv : Bool) (p : Player) (pipes : List Pipe) :
    (checkPipes inv p pipes).1.vision = p.vision ∨
    (checkPipes inv p pipes).1.vision = 1.0 := by
  induction pipes generalizing p with
  | nil => left; simp [checkPipes]
  | cons pipe rest ih =>
    simp only [checkPipes]
    split
    · split
      · simpa using scanHoles_vision pipe.x p pipe.holes
      · split
        · rcases ih { (scanHoles pipe.x p pipe.holes).1 with
            score := (scanHoles pipe.x p pipe.holes).1.score + 1 } with h | h
          · rcases scanHoles_vision pipe.x p pipe.holes with h2 | h2
            · left; simpa [h2] using h
            · right; simpa [h2] using h
          · right; simpa using h
        · rcases ih (scanHoles pipe.x p pipe.holes).1 with h | h
          · rcases scanHoles_vision pipe.x p pipe.holes with h2 | h2
            · left; simpa [h2] using h
            · right; simpa [h2] using h
          · right; simpa using h
    · simpa using ih p

theorem checkCollisionsRest_vision (inv : Bool) (pipes : List Pipe) (p : Player) :
    (checkCollisionsRest inv pipes p).1.vision = p.vision ∨
    (checkCollisionsRest inv pipes p).1.vision = 1.0 := by
  unfold checkCollisionsRest
  split
  · simpa using checkPipes_vision inv _ pipes
  · exact checkPipes_vision inv p pipes

theorem checkCollisions_vision (now : ℤ) (pipes : List Pipe) (p : Player) :
    (checkCollisions now pipes p).1.vision = p.vision ∨
    (checkCollisions now pipes p).1.vision = 1.0 := by
  unfold checkCollisions
  simp only
  split
  · split
    · simpa using checkCollisionsRest_vision _ pipes
        { p with y := 0.85, velocityY := qmin 0 p.velocityY }
    · left; rfl
  · exact checkCollisionsRest_vision _ pipes p

theorem updatePlayer_vision (now : ℤ) (g : ℚ) (pipes : List Pipe) (p : Player) :
    (updatePlayer now g pipes p).1.vision =
      qmax MIN_VISION
        (p.vision - VISION_DEGRADATION_RATE * p.visionDegradationMultiplier) ∨
    (updatePlayer now g pipes p).1.vision = 1.0 := by
  unfold updatePlayer
  simp only
  split <;> exact checkCollisions_vision now pipes _

theorem eliminateCore_vision (now : ℤ) (ac : ℕ) (p : Player) :
    (eliminateCore now ac p).vision = p.vision := by
  simp only [eliminateCore]
  split
  · rfl
  · split <;> rfl

theorem eliminateCore_mult (now : ℤ) (ac : ℕ) (p : Player) :
    (eliminateCore now ac p).visionDegradationMultiplier =
      p.visionDegradationMultiplier := by
  simp only [eliminateCore]
  split
  · rfl
  · split <;> rfl

/-- The per-player content of one tick of the game loop: `updatePlayer`
followed, when lethal contact occurred, by the elimination procedure's
player mutation (this is exactly what `tickOnePlayer` does to the player's
entry, see `tickOnePlayer_is_playerTick`). -/
structure TickCtx where
  now : ℤ
  aliveCount : ℕ
  gravity : ℚ
  pipes : List Pipe

def playerTick (c : TickCtx) (p : Player) : Player :=
  let res := updatePlayer c.now c.gravity c.pipes p
  if res.2.2 then eliminateCore c.now c.aliveCount res.1 else res.1

/-- A sequence of ticks as experienced by one player. -/
def runTicks (ticks : List TickCtx) (p : Player) : Player :=
  ticks.foldl (fun q c => playerTick c q) p

theorem tickOnePlayer_is_playerTick (now : ℤ) (r : BattleRoyaleRoom)
    (sid : String) (p : Player) (hf : findPlayer r sid = some p)
    (halive : p.alive = true) :
    findPlayer (tickOnePlayer now r sid) sid =
      some (playerTick ⟨now, r.state.playersAlive, r.state.gravity,
        r.state.pipes⟩ p) := by
  have hpid : p.id = sid := findPlayer_id r sid p hf
  have hrid : (updatePlayer now r.state.gravity r.state.pipes p).1.id = sid :=
    (updatePlayer_id now r.state.gravity r.state.pipes p).trans hpid
  unfold tickOnePlayer
  rw [hf]
  simp only
  rw [if_neg (by simp [halive])]
  unfold playerTick
  simp only
  split
  · next hleth =>
    unfold eliminatePlayer
    have hfind1 : findPlayer { r with state := { r.state with
        players := updateById r.state.players sid
          (updatePlayer now r.state.gravity r.state.pipes p).1,
        pipes := (updatePlayer now r.state.gravity r.state.pipes p).2.1 } } sid =
        some (updatePlayer now r.state.gravity r.state.pipes p).1 :=
      find?_updateById r.state.players sid p _ hf hrid
    rw [hfind1]
    simp only
    rw [if_neg (by
      simp [updatePlayer_alive now r.state.gravity r.state.pipes p, halive])]
    have hcid : (eliminateCore now r.state.playersAlive
        (updatePlayer now r.state.gravity r.state.pipes p).1).id = sid :=
      (eliminateCore_id _ _ _).trans hrid
    split
    · exact find?_updateById _ sid
        (updatePlayer now r.state.gravity r.state.pipes p).1 _ hfind1 hcid
    · exact find?_updateById _ sid
        (updatePlayer now r.state.gravity r.state.pipes p).1 _ hfind1 hcid
  · next hleth =>
    exact find?_updateById r.state.players sid p _ hf hrid

/-- No collectible is available to the player in any of these pipes. -/
def NoCollectible (pipes : List Pipe) (pid : String) : Prop :=
  ∀ pipe ∈ pipes, ∀ h ∈ pipe.holes, h.hasItem = true → pid ∈ h.itemCollectedBy

theorem scanHoles_nocollect (pipeX : ℚ) (p : Player) (holes : List Hole)
    (hnc : ∀ h ∈ holes, h.hasItem = true → p.id ∈ h.itemCollectedBy) :
    (scanHoles pipeX p holes).1 = p := by
  induction holes with
  | nil => rfl
  | cons hole rest ih =>
    simp only [scanHoles]
    split
    · rw [if_neg]
      rintro ⟨hi, hc, -⟩
      exact hc (by simpa using hnc hole (by simp) hi)
    · exact ih fun h hm hi => hnc h (by simp [hm]) hi

theorem checkPipes_nocollect (inv : Bool) (p : Player) (pipes : List Pipe)
    (hnc : NoCollectible pipes p.id) :
    (checkPipes inv p pipes).1.vision = p.vision ∧
    (checkPipes inv p pipes).1.visionDegradationMultiplier =
      p.visionDegradationMultiplier := by
  induction pipes generalizing p with
  | nil => exact ⟨rfl, rfl⟩
  | cons pipe rest ih =>
    have hhead : (scanHoles pipe.x p pipe.holes).1 = p :=
      scanHoles_nocollect pipe.x p pipe.holes
        (fun h hm hi => hnc pipe (by simp) h hm hi)
    have htail : NoCollectible rest p.id :=
      fun q hq h hm hi => hnc q (by simp [hq]) h hm hi
    simp only [checkPipes]
    split
    · rw [hhead]
      split
      · exact ⟨rfl, rfl⟩
      · split
        · exact ih { p with score := p.score + 1 } htail
        · exact ih p htail
    · exact ih p htail

theorem checkCollisions_nocollect (now : ℤ) (pipes : List Pipe) (p : Player)
    (hnc : NoCollectible pipes p.id) :
    (checkCollisions now pipes p).1.vision = p.vision ∧
    (checkCollisions now pipes p).1.visionDegradationMultiplier =
      p.visionDegradationMultiplier := by
  unfold checkCollisions checkCollisionsRest
  simp only
  split
  · split
    · split
      · exact checkPipes_nocollect _ _ pipes hnc
      · exact checkPipes_nocollect _ _ pipes hnc
    · exact ⟨rfl, rfl⟩
  · split
    · exact checkPipes_nocollect _ _ pipes hnc
    · exact checkPipes_nocollect _ _ pipes hnc

theorem updatePlayer_nocollect (now : ℤ) (g : ℚ) (pipes : List Pipe) (p : Player)
    (hnc : NoCollectible pipes p.id) :
    (updatePlayer now g pipes p).1.vision =
      qmax MIN_VISION
        (p.vision - VISION_DEGRADATION_RATE * p.visionDegradationMultiplier) ∧
    (updatePlayer now g pipes p).1.visionDegradationMultiplier =
      p.visionDegradationMultiplier := by
  unfold updatePlayer
  simp only
  split <;> exact checkCollisions_nocollect now pipes _ hnc

theorem playerTick_nocollect (c : TickCtx) (p : Player)
    (hnc : NoCollectible c.pipes p.id) :
    (playerTick c p).vision =
      qmax MIN_VISION
        (p.vision - VISION_DEGRADATION_RATE * p.visionDegradationMultiplier) ∧
    (playerTick c p).visionDegradationMultiplier =
      p.visionDegradationMultiplier := by
  unfold playerTick
  simp only
  obtain ⟨hv, hm⟩ := updatePlayer_nocollect c.now c.gravity c.pipes p hnc
  split
  · rw [eliminateCore_vision, eliminateCore_mult]
    exact ⟨hv, hm⟩
  · exact ⟨hv, hm⟩

theorem playerTick_id (c : TickCtx) (p : Player) :
    (playerTick c p).id = p.id := by
  unfold playerTick
  simp only
  split
  · rw [eliminateCore_id]
    exact updatePlayer_id _ _ _ _
  · exact updatePlayer_id _ _ _ _

theorem qmax_decay (m a r : ℚ) (hr : 0 ≤ r) :
    qmax m (qmax m a - r) = qmax m (a - r) := by
  rw [qmax_eq_max, qmax_eq_max, qmax_eq_max]
  rcases le_total a m with h | h
  · rw [max_eq_left h, max_eq_left (by linarith), max_eq_left (by linarith)]
  · rw [max_eq_right h]

theorem runTicks_formula (ticks : List TickCtx) (p : Player) (k : ℕ)
    (hv : p.vision = qmax MIN_VISION (1 - (k : ℚ) * VISION_DEGRADATION_RATE))
    (hm : p.visionDegradationMultiplier = 1)
    (hnc : ∀ c ∈ ticks, NoCollectible c.pipes p.id) :
    (runTicks ticks p).vision =
      qmax MIN_VISION (1 - ((k + ticks.length : ℕ) : ℚ) * VISION_DEGRADATION_RATE) := by
  induction ticks generalizing p k with
  | nil => simpa using hv
  | cons c cs ih =>
    simp only [runTicks, List.foldl_cons] at *
    obtain ⟨hv1, hm1⟩ := playerTick_nocollect c p (hnc c (by simp))
    have hv2 : (playerTick c p).vision =
        qmax MIN_VISION (1 - ((k + 1 : ℕ) : ℚ) * VISION_DEGRADATION_RATE) := by
      rw [hv1, hm, hv, mul_one, qmax_decay _ _ _ (by norm_num [VISION_DEGRADATION_RATE])]
      push_cast
      ring_nf
    have hrest : ∀ d ∈ cs, NoCollectible d.pipes (playerTick c p).id := by
      rw [playerTick_id]
      exact fun d hd => hnc d (by simp [hd])
    have := ih (playerTick c p) (k + 1) hv2 (hm1.trans hm) hrest
    rw [this, List.length_cons, show k + 1 + cs.length = k + (cs.length + 1) by omega]

/-- Claim C4: (1) for every tick and every player with in-range vision and
a non-negative degradation multiplier, `MIN_VISION ≤ vision ≤ 1.0` still
holds after the tick; (2) for a player starting a round (vision `1.0`,
multiplier `1.0`) who can collect no collectible, after `n` ticks vision is
exactly `max(MIN_VISION, 1.0 - n * baseDecayRate * 1.0)`. -/
theorem claim_C4 :
    (∀ (c : TickCtx) (p : Player),
      MIN_VISION ≤ p.vision → p.vision ≤ 1 →
      0 ≤ p.visionDegradationMultiplier →
      MIN_VISION ≤ (playerTick c p).vision ∧ (playerTick c p).vision ≤ 1) ∧
    (∀ (ticks : List TickCtx) (p : Player),
      p.vision = 1 → p.visionDegradationMultiplier = 1 →
      (∀ c ∈ ticks, NoCollectible c.pipes p.id) →
      (runTicks ticks p).vision =
        max MIN_VISION
          (1 - (ticks.length : ℚ) * VISION_DEGRADATION_RATE * 1.0)) := by
  constructor
  · intro c p h1 h2 h3
    have hcases : (playerTick c p).vision =
        qmax MIN_VISION
          (p.vision - VISION_DEGRADATION_RATE * p.visionDegradationMultiplier) ∨
        (playerTick c p).vision = 1.0 := by
      unfold playerTick
      simp only
      split
      · rw [eliminateCore_vision]
        exact updatePlayer_vision c.now c.gravity c.pipes p
      · exact updatePlayer_vision c.now c.gravity c.pipes p
    have hr : 0 ≤ VISION_DEGRADATION_RATE * p.visionDegradationMultiplier :=
      mul_nonneg (by norm_num [VISION_DEGRADATION_RATE]) h3
    rcases hcases with h | h <;> rw [h]
    · rw [qmax_eq_max]
      exact ⟨le_max_left _ _,
        max_le (by norm_num [MIN_VISION]) (by linarith)⟩
    · exact ⟨by norm_num [MIN_VISION], by norm_num⟩
  · intro ticks p hv hm hnc
    have h0 : p.vision =
        qmax MIN_VISION (1 - ((0 : ℕ) : ℚ) * VISION_DEGRADATION_RATE) := by
      rw [hv, qmax_eq_max]
      rw [show (((0 : ℕ) : ℚ)) * VISION_DEGRADATION_RATE = 0 by norm_num,
        sub_zero, max_eq_right (by norm_num [MIN_VISION])]
    have hrun := runTicks_formula ticks p 0 h0 hm hnc
    rw [hrun, qmax_eq_max, Nat.zero_add]
    congr 1
    ring

/-- One tick with no obstacles. -/
def tickC4 : TickCtx := ⟨1000, 2, GRAVITY, []⟩

/-- A player mid-round with degraded vision and a raised multiplier. -/
def playerC4 : Player := { id := "w4", vision := 0.5, visionDegradationMultiplier := 1.3 }

/-- A fresh round-start player. -/
def playerC4b : Player := { id := "w4b" }

theorem claim_C4_witness :
    (MIN_VISION ≤ (playerTick tickC4 playerC4).vision ∧
      (playerTick tickC4 playerC4).vision ≤ 1) ∧
    (runTicks [tickC4] playerC4b).vision =
      max MIN_VISION (1 - ((1 : ℕ) : ℚ) * VISION_DEGRADATION_RATE * 1.0) :=
  ⟨claim_C4.1 tickC4 playerC4 (by norm_num [playerC4, MIN_VISION])
      (by norm_num [playerC4]) (by norm_num [playerC4]),
   by
    have h := claim_C4.2 [tickC4] playerC4b (by norm_num [playerC4b])
      (by norm_num [playerC4b])
      (by intro c hc; simp [NoCollectible, tickC4] at hc ⊢; rw [hc]; simp [tickC4])
    simpa using h⟩

/-! ## Claim C8: pass-point machinery -/

/-- The `passed` flag of the `i`-th obstacle (`true` when out of range). -/
def pipePassed (r : BattleRoyaleRoom) (i : ℕ) : Bool :=
  match r.state.pipes.get? i with
  | some pipe => pipe.passed
  | none => true

/-- How many obstacles flipped from unpassed to passed between two
equally-long pipe lists (each flip is one awarded pass point). -/
def newlyPassed (old new : List Pipe) : ℕ :=
  ((old.zip new).filter (fun pr => ¬pr.1.passed ∧ pr.2.passed)).length

theorem newlyPassed_self (l : List Pipe) : newlyPassed l l = 0 := by
  induction l with
  | nil => rfl
  | cons a rest ih =>
    unfold newlyPassed at *
    simp only [List.zip_cons_cons, List.filter_cons]
    rw [if_neg (by simp)]
    exact ih

theorem checkPipes_pipes_length (inv : Bool) (p : Player) (pipes : List Pipe) :
    (checkPipes inv p pipes).2.1.length = pipes.length := by
  induction pipes generalizing p with
  | nil => rfl
  | cons pipe rest ih =>
    simp only [checkPipes]
    split
    · split
      · simp
      · split <;> simp [ih]
    · simp [ih]

theorem checkPipes_passed_mono (inv : Bool) (p : Player) (pipes : List Pipe)
    (i : ℕ) (pipe0 : Pipe) (hget : pipes.get? i = some pipe0)
    (hpass : pipe0.passed = true) :
    ∃ pipe1, (checkPipes inv p pipes).2.1.get? i = some pipe1 ∧
      pipe1.passed = true := by
  induction pipes generalizing p i with
  | nil => simp at hget
  | cons pipe rest ih =>
    simp only [checkPipes]
    split
    · split
      · cases i with
        | zero =>
          simp only [List.get?] at hget
          obtain rfl := Option.some_inj.mp hget
          exact ⟨_, rfl, hpass⟩
        | succ j =>
          exact ⟨pipe0, by simpa using hget, hpass⟩
      · cases i with
        | zero =>
          simp only [List.get?] at hget
          obtain rfl := Option.some_inj.mp hget
          refine ⟨_, rfl, ?_⟩
          split
          · next hhit => exact absurd hpass (by simpa using hhit.1)
          · exact hpass
        | succ j =>
          split
          · have := ih { (scanHoles pipe.x p pipe.holes).1 with
              score := (scanHoles pipe.x p pipe.holes).1.score + 1 } j
              (by simpa using hget)
            simpa using this
          · have := ih (scanHoles pipe.x p pipe.holes).1 j (by simpa using hget)
            simpa using this
    · cases i with
      | zero =>
        simp only [List.get?] at hget
        obtain rfl := Option.some_inj.mp hget
        exact ⟨_, rfl, hpass⟩
      | succ j =>
        have := ih p j (by simpa using hget)
        simpa using this

theorem checkCollisions_pipes_length (now : ℤ) (pipes : List Pipe) (p : Player) :
    (checkCollisions now pipes p).2.1.length = pipes.length := by
  unfold checkCollisions checkCollisionsRest
  simp only
  split
  · split
    · split <;> exact checkPipes_pipes_length _ _ pipes
    · rfl
  · split <;> exact checkPipes_pipes_length _ _ pipes

theorem checkCollisions_passed_mono (now : ℤ) (pipes : List Pipe) (p : Player)
    (i : ℕ) (pipe0 : Pipe) (hget : pipes.get? i = some pipe0)
    (hpass : pipe0.passed = true) :
    ∃ pipe1, (checkCollisions now pipes p).2.1.get? i = some pipe1 ∧
      pipe1.passed = true := by
  unfold checkCollisions checkCollisionsRest
  simp only
  split
  · split
    · split <;> exact checkPipes_passed_mono _ _ pipes i pipe0 hget hpass
    · exact ⟨pipe0, hget, hpass⟩
  · split <;> exact checkPipes_passed_mono _ _ pipes i pipe0 hget hpass

theorem updatePlayer_pipes_length (now : ℤ) (g : ℚ) (pipes : List Pipe) (p : Player) :
    (updatePlayer now g pipes p).2.1.length = pipes.length := by
  unfold updatePlayer
  simp only
  split <;> exact checkCollisions_pipes_length now pipes _

theorem updatePlayer_passed_mono (now : ℤ) (g : ℚ) (pipes : List Pipe) (p : Player)
    (i : ℕ) (pipe0 : Pipe) (hget : pipes.get? i = some pipe0)
    (hpass : pipe0.passed = true) :
    ∃ pipe1, (updatePlayer now g pipes p).2.1.get? i = some pipe1 ∧
      pipe1.passed = true := by
  unfold updatePlayer
  simp only
  split <;> exact checkCollisions_passed_mono now pipes _ i pipe0 hget hpass

theorem eliminatePlayer_pipes (now : ℤ) (sid : String) (r : BattleRoyaleRoom) :
    (eliminatePlayer now sid r).state.pipes = r.state.pipes := by
  unfold eliminatePlayer
  cases findPlayer r sid with
  | none => rfl
  | some player =>
    simp only
    split
    · rfl
    · split <;> rfl

theorem tickOnePlayer_passed_mono (now : ℤ) (r : BattleRoyaleRoom) (sid : String)
    (i : ℕ) (hpass : pipePassed r i = true) :
    pipePassed (tickOnePlayer now r sid) i = true := by
  unfold tickOnePlayer
  cases hf : findPlayer r sid with
  | none => exact hpass
  | some p =>
    simp only
    split
    · exact hpass
    · have hpipes : ∀ r2 : BattleRoyaleRoom,
        r2.state.pipes = (updatePlayer now r.state.gravity r.state.pipes p).2.1 →
          pipePassed r2 i = true := by
        intro r2 h2
        unfold pipePassed
        rw [h2]
        unfold pipePassed at hpass
        cases hget : r.state.pipes.get? i with
        | none =>
          have hlen : r.state.pipes.length ≤ i := by
            simpa using List.get?_eq_none.mp hget
          rw [List.get?_eq_none.mpr
            (by rw [updatePlayer_pipes_length]; exact hlen)]
        | some pipe0 =>
          rw [hget] at hpass
          obtain ⟨pipe1, hg1, hp1⟩ :=
            updatePlayer_passed_mono now r.state.gravity r.state.pipes p i pipe0
              hget hpass
          rw [hg1]
          exact hp1
      split
      · unfold pipePassed
        rw [eliminatePlayer_pipes]
        exact hpipes _ rfl
      · exact hpipes _ rfl

theorem foldTick_passed_mono (now : ℤ) (ids : List String)
    (r : BattleRoyaleRoom) (i : ℕ) (hpass : pipePassed r i = true) :
    pipePassed (ids.foldl (tickOnePlayer now) r) i = true := by
  induction ids generalizing r with
  | nil => exact hpass
  | cons sid rest ih =>
    exact ih _ (tickOnePlayer_passed_mono now r sid i hpass)

theorem eliminateCore_score (now : ℤ) (ac : ℕ) (p : Player) :
    (eliminateCore now ac p).score = p.score := by
  simp only [eliminateCore]
  split
  · rfl
  · split <;> rfl

theorem checkPipes_score_account (inv : Bool) (p : Player) (pipes : List Pipe)
    (hnc : NoCollectible pipes p.id) :
    (checkPipes inv p pipes).1.score =
      p.score + (newlyPassed pipes (checkPipes inv p pipes).2.1 : ℤ) := by
  induction pipes generalizing p with
  | nil => simp [checkPipes, newlyPassed]
  | cons pipe rest ih =>
    have hhead : (scanHoles pipe.x p pipe.holes).1 = p :=
      scanHoles_nocollect pipe.x p pipe.holes
        (fun h hm hi => hnc pipe (by simp) h hm hi)
    have htail : NoCollectible rest p.id :=
      fun q hq h hm hi => hnc q (by simp [hq]) h hm hi
    simp only [checkPipes]
    split
    · rw [hhead]
      split
      · simp only [newlyPassed, List.zip_cons_cons, List.filter_cons]
        rw [if_neg (by simp)]
        have hself := newlyPassed_self rest
        unfold newlyPassed at hself
        rw [hself]
        simp
      · split
        · next hhit =>
          rw [ih { p with score := p.score + 1 } htail]
          simp only [newlyPassed, List.zip_cons_cons, List.filter_cons]
          rw [if_pos (by simpa using hhit.1)]
          simp only [List.length_cons]
          push_cast
          ring
        · rw [ih p htail]
          simp only [newlyPassed, List.zip_cons_cons, List.filter_cons]
          rw [if_neg (by simp)]
    · rw [ih p htail]
      simp only [newlyPassed, List.zip_cons_cons, List.filter_cons]
      rw [if_neg (by simp)]

theorem checkCollisions_score_account (now : ℤ) (pipes : List Pipe) (p : Player)
    (hnc : NoCollectible pipes p.id) :
    (checkCollisions now pipes p).1.score =
      p.score + (newlyPassed pipes (checkCollisions now pipes p).2.1 : ℤ) := by
  unfold checkCollisions checkCollisionsRest
  simp only
  split
  · split
    · split
      · exact checkPipes_score_account _ _ pipes hnc
      · exact checkPipes_score_account _ _ pipes hnc
    · simp [newlyPassed_self]
  · split
    · exact checkPipes_score_account _ _ pipes hnc
    · exact checkPipes_score_account _ _ pipes hnc

theorem updatePlayer_score_account (now : ℤ) (g : ℚ) (pipes : List Pipe)
    (p : Player) (hnc : NoCollectible pipes p.id) :
    (updatePlayer now g pipes p).1.score =
      p.score + (newlyPassed pipes (updatePlayer now g pipes p).2.1 : ℤ) := by
  unfold updatePlayer
  simp only
  split <;> exact checkCollisions_score_account now pipes _ hnc

theorem tickOnePlayer_pipes (now : ℤ) (r : BattleRoyaleRoom) (sid : String)
    (p : Player) (hf : findPlayer r sid = some p) (halive : p.alive = true) :
    (tickOnePlayer now r sid).state.pipes =
      (updatePlayer now r.state.gravity r.state.pipes p).2.1 := by
  unfold tickOnePlayer
  rw [hf]
  simp only
  rw [if_neg (by simp [halive])]
  split
  · rw [eliminatePlayer_pipes]
  · rfl

/-- Claim C8: the pass point is global per obstacle.  (a) each obstacle's
`passed` flag, once `true`, survives any player's tick; (b) it survives the
whole per-tick fold over every player in iteration order, so after the
first player flips it no later player can flip it again; (c) a living
player's tick changes their score by exactly the number of obstacles whose
flag that player flipped (one point per flip, absent collectible bonuses),
so the single point for an obstacle goes to the first player, in iteration
order, whose update flips it; (d) scrolling preserves surviving obstacles'
flags, so the guarantee extends across ticks for the obstacle's whole
lifetime. -/
theorem claim_C8 :
    (∀ (now : ℤ) (r : BattleRoyaleRoom) (sid : String) (i : ℕ),
      pipePassed r i = true → pipePassed (tickOnePlayer now r sid) i = true) ∧
    (∀ (now : ℤ) (ids : List String) (r : BattleRoyaleRoom) (i : ℕ),
      pipePassed r i = true →
      pipePassed (ids.foldl (tickOnePlayer now) r) i = true) ∧
    (∀ (now : ℤ) (r : BattleRoyaleRoom) (sid : String) (p : Player),
      findPlayer r sid = some p → p.alive = true →
      NoCollectible r.state.pipes p.id →
      ∃ p', findPlayer (tickOnePlayer now r sid) sid = some p' ∧
        p'.score = p.score +
          (newlyPassed r.state.pipes (tickOnePlayer now r sid).state.pipes : ℤ)) ∧
    (∀ (r : BattleRoyaleRoom), ∀ pipe' ∈ movedPipes r,
      ∃ pipe ∈ r.state.pipes, pipe'.passed = pipe.passed) := by
  refine ⟨tickOnePlayer_passed_mono, foldTick_passed_mono, ?_, ?_⟩
  · intro now r sid p hf halive hnc
    refine ⟨_, tickOnePlayer_is_playerTick now r sid p hf halive, ?_⟩
    rw [tickOnePlayer_pipes now r sid p hf halive]
    unfold playerTick
    simp only
    split
    · rw [eliminateCore_score]
      exact updatePlayer_score_account now r.state.gravity r.state.pipes p hnc
    · exact updatePlayer_score_account now r.state.gravity r.state.pipes p hnc
  · intro r pipe' hmem
    unfold movedPipes at hmem
    rw [List.mem_filter] at hmem
    obtain ⟨hm, -⟩ := hmem
    rw [List.mem_map] at hm
    obtain ⟨pipe, hp, rfl⟩ := hm
    exact ⟨pipe, hp, rfl⟩

/-- A room whose only obstacle at the bird column is already passed. -/
def roomC8 : BattleRoyaleRoom :=
  { state :=
      { phase := "playing", playersAlive := 2, totalPlayers := 2,
        players := [{ id := "a" }, { id := "b" }],
        pipes := [{ x := 0.25,
                    holes := [{ y := 0.5, size := 0.3, hasItem := false,
                                itemCollectedBy := [] }],
                    passed := true }] },
    lastPipeX := 5, debugMode := false }

theorem claim_C8_witness :
    pipePassed (tickOnePlayer 3000 roomC8 "a") 0 = true ∧
    pipePassed (["a", "b"].foldl (tickOnePlayer 3000) roomC8) 0 = true ∧
    (∃ p', findPlayer (tickOnePlayer 3000 roomC8 "a") "a" = some p' ∧
      p'.score = ({ id := "a" } : Player).score +
        (newlyPassed roomC8.state.pipes
          (tickOnePlayer 3000 roomC8 "a").state.pipes : ℤ)) :=
  ⟨claim_C8.1 3000 roomC8 "a" 0 rfl,
   claim_C8.2.1 3000 ["a", "b"] roomC8 0 rfl,
   claim_C8.2.2.1 3000 roomC8 "a" { id := "a" } rfl rfl
     (by
       intro q hq h hm hi
       simp only [roomC8, List.mem_singleton] at hq
       subst hq
       simp only [List.mem_singleton] at hm
       subst hm
       simp at hi)⟩
